import Mathlib

/-!
Verification of the BuildStream element loader (`_loader/loader.py`) and the
project reference store (`_projectrefs.py`) against their natural-language
specification.  Python functions are shallowly embedded as executable Lean
definitions; stateful code is rendered by explicit state passing, fallible
code returns `Except`, and recursion that Python bounds only by its call
stack is bounded here by an explicit fuel argument (a result of `none`
means the model ran out of fuel, which never happens for adequate fuel).
-/

set_option linter.unusedVariables false

/-- The closed enumeration of error kinds (`LoadErrorReason` in
`_exceptions.py`), restricted to the reasons raised by the code under
verification. -/
inductive LoadErrorReason where
  | invalidData
  | missingFile
  | circularDependency
  | conflictingJunction
  | subprojectFetchNeeded
  | subprojectInconsistent
  | invalidJunction
deriving DecidableEq

/-- A raised `LoadError`: its reason together with the human-readable
message built by the `format` call at the raise site. -/
structure LoadErr where
  reason : LoadErrorReason
  message : String
deriving DecidableEq

/-! ## Loader constructor (`Loader.__init__`, loader.py lines 57-90) -/

/-- String prefix test, computed on the underlying character lists so that
concrete instances reduce inside the kernel.  `strIsPrefixOf p s` is
Python's `s.startswith(p)`. -/
def strIsPrefixOf (p s : String) : Bool := p.data.isPrefixOf s.data

/-- `os.path.isabs` on POSIX: a path is absolute iff it begins with the
path separator. -/
def isabs (s : String) : Bool := strIsPrefixOf "/" s

/-- The message of the `LoadError` raised by `Loader.__init__` for an
absolute target (loader.py lines 68-71), with the quoting of the original
format string dropped. -/
def loaderInitMsg (filename basedir : String) : String :=
  "Target " ++ filename ++ " was not specified as a relative path to the base project directory: " ++ basedir

/-- The state a freshly constructed `Loader` holds: the base directory, the
target list, and the (initially empty) table of loaded elements.  The
constructor performs no file loading, so `elements` is always `[]` on the
success path. -/
structure LoaderCtorState where
  basedir : String
  targets : List String
  elements : List String
deriving DecidableEq

/-- `Loader.__init__` (loader.py lines 57-90): scan the targets in order
and raise `INVALID_DATA` at the first absolute path; otherwise construct
the state with empty element tables. -/
def loaderInit (basedir : String) (filenames : List String) : Except LoadErr LoaderCtorState :=
  match filenames.find? (fun f => isabs f) with
  | some f => .error ⟨.invalidData, loaderInitMsg f basedir⟩
  | none => .ok ⟨basedir, filenames, []⟩

/-! ## `Loader.cleanup` (loader.py lines 144-162) -/

/-- A loader as seen by `cleanup`: its temporary directory (if any) and its
child junction loaders.  The `None` sentinels stored in `_loaders` for
absent junctions are skipped by the `if loader is not None` guard at
lines 151-153 and are therefore not represented here. -/
inductive CleanupLoader where
  | mk (tempdir : Option String) (children : List CleanupLoader)

/-- The list of children of a cleanup loader. -/
def CleanupLoader.children : CleanupLoader → List CleanupLoader
  | .mk _ cs => cs

/-- The tempdir of a cleanup loader. -/
def CleanupLoader.tempdir : CleanupLoader → Option String
  | .mk td _ => td

/-- `Loader.cleanup` (loader.py lines 144-162), returning, in order, the
directories it would hand to `shutil.rmtree`.  `hasParent` is the truth
value of `self._parent`; the `os.path.exists` guard is omitted since it
only skips removal of a directory that is already gone.  Fuel bounds the
recursion depth; `cleanup` of an exhausted-fuel call removes nothing. -/
def cleanup (builddir : String) : Nat → Bool → CleanupLoader → List String
  | 0, _, _ => []
  | fuel+1, hasParent, .mk tempdir children =>
    if hasParent && tempdir.isNone then []
    else
      let childPart := (children.map (fun c => cleanup builddir fuel true c)).flatten
      if !hasParent then childPart
      else
        match tempdir with
        | some d => childPart ++ (if strIsPrefixOf (builddir ++ "/") d then [d] else [])
        | none => childPart

/-- Every directory `cleanup` removes passes the build-root prefix guard. -/
theorem cleanup_mem_prefix (builddir : String) :
    ∀ (fuel : Nat) (hasParent : Bool) (l : CleanupLoader) (d : String),
      d ∈ cleanup builddir fuel hasParent l → strIsPrefixOf (builddir ++ "/") d = true := by
  intro fuel
  induction fuel with
  | zero => intro hp l d hd; simp [cleanup] at hd
  | succ n ih =>
    intro hp l d hd
    cases l with
    | mk td cs =>
      simp only [cleanup] at hd
      by_cases hguard : (hp && td.isNone) = true
      · simp [hguard] at hd
      · rw [Bool.not_eq_true] at hguard
        simp only [hguard, Bool.false_eq_true, if_false] at hd
        by_cases hnp : hp = false
        · simp only [hnp] at hd
          simp only [Bool.not_false, if_true] at hd
          rcases List.mem_flatten.mp hd with ⟨s, hs, hds⟩
          rcases List.mem_map.mp hs with ⟨c, hc, rfl⟩
          exact ih true c d hds
        · rw [Bool.not_eq_false] at hnp
          simp only [hnp, Bool.not_true, Bool.false_eq_true, if_false] at hd
          cases td with
          | none =>
            rcases List.mem_flatten.mp hd with ⟨s, hs, hds⟩
            rcases List.mem_map.mp hs with ⟨c, hc, rfl⟩
            exact ih true c d hds
          | some dir =>
            rcases List.mem_append.mp hd with hleft | hright
            · rcases List.mem_flatten.mp hleft with ⟨s, hs, hds⟩
              rcases List.mem_map.mp hs with ⟨c, hc, rfl⟩
              exact ih true c d hds
            · by_cases hpre : strIsPrefixOf (builddir ++ "/") dir = true
              · simp only [hpre, if_true, List.mem_singleton] at hright
                subst hright; exact hpre
              · simp [hpre] at hright

/-- C8: `cleanup()` recurses into the children before handling its own
state; a loader removes its tempdir only when it has a parent and the
tempdir passes the build-root prefix check, the root loader never removes
its own directory, and no removed path escapes the build root. -/
theorem cleanup_spec (builddir : String) (fuel : Nat) :
    (∀ (hasParent : Bool) (l : CleanupLoader) (d : String),
        d ∈ cleanup builddir fuel hasParent l → strIsPrefixOf (builddir ++ "/") d = true)
    ∧ (∀ td cs, cleanup builddir (fuel+1) false (.mk td cs) =
        (cs.map (fun c => cleanup builddir fuel true c)).flatten)
    ∧ (∀ td cs, cleanup builddir (fuel+1) true (.mk (some td) cs) =
        (cs.map (fun c => cleanup builddir fuel true c)).flatten
          ++ (if strIsPrefixOf (builddir ++ "/") td then [td] else []))
    ∧ (∀ td cs, ¬ strIsPrefixOf (builddir ++ "/") td = true →
        cleanup builddir (fuel+1) true (.mk (some td) cs) =
          (cs.map (fun c => cleanup builddir fuel true c)).flatten) := by
  refine ⟨fun hp l d hd => cleanup_mem_prefix builddir fuel hp l d hd, ?_, ?_, ?_⟩
  · intro td cs; simp [cleanup]
  · intro td cs; simp [cleanup]
  · intro td cs hpre
    simp only [Bool.not_eq_true] at hpre
    simp [cleanup, hpre]

/-- Concrete instantiation of `cleanup_spec`: a subproject tempdir under
the build root is removed after the children, and a corrupted tempdir
outside the build root is left alone. -/
theorem cleanup_spec_witness :
    ((cleanup "/build" 2 true (.mk (some "/build/sub-a") [.mk (some "/build/sub-b") []]) =
        ["/build/sub-b", "/build/sub-a"])
      ∧ cleanup "/build" 2 true (.mk (some "/etc") []) = [])
    ∧ (strIsPrefixOf "/build/" "/build/sub-b" = true) := by
  constructor
  · constructor
    · have h := (cleanup_spec "/build" 1).2.2.1 "/build/sub-a" [.mk (some "/build/sub-b") []]
      rw [h]; decide
    · have h := (cleanup_spec "/build" 1).2.2.2 "/etc" [] (by decide)
      rw [h]; decide
  · exact cleanup_mem_prefix "/build" 2 true (.mk (some "/build/sub-b") [])
      "/build/sub-b" (by decide)

/-! ## C10: absolute targets are rejected by the constructor -/

/-- C10: if any requested target is an absolute path, `Loader.__init__`
raises `INVALID_DATA` naming the offending target, and no loader state (in
particular no loaded element) is produced. -/
theorem loaderInit_absolute_target (basedir : String) (filenames : List String)
    (f : String) (hf : f ∈ filenames) (habs : isabs f = true) :
    (∃ g, g ∈ filenames ∧ isabs g = true ∧
      loaderInit basedir filenames = .error ⟨.invalidData, loaderInitMsg g basedir⟩)
    ∧ (∀ st, loaderInit basedir filenames ≠ .ok st) := by
  have hfind : (filenames.find? (fun f => isabs f)).isSome = true := by
    cases hcase : filenames.find? (fun f => isabs f) with
    | none =>
      exfalso
      have := List.find?_eq_none.mp hcase f hf
      simp [habs] at this
    | some g => rfl
  cases hcase : filenames.find? (fun f => isabs f) with
  | none => rw [hcase] at hfind; simp at hfind
  | some g =>
    have hmem : g ∈ filenames := List.mem_of_find?_eq_some hcase
    have hsat : isabs g = true := by
      have := List.find?_some hcase
      simpa using this
    constructor
    · exact ⟨g, hmem, hsat, by simp [loaderInit, hcase]⟩
    · intro st hok
      simp [loaderInit, hcase] at hok

/-- Concrete instantiation of `loaderInit_absolute_target`. -/
theorem loaderInit_absolute_target_witness :
    ("/abs.bst" ∈ ["ok.bst", "/abs.bst"] ∧ isabs "/abs.bst" = true)
    ∧ ((∃ g, g ∈ ["ok.bst", "/abs.bst"] ∧ isabs g = true ∧
          loaderInit "/proj/elements" ["ok.bst", "/abs.bst"] =
            .error ⟨.invalidData, loaderInitMsg g "/proj/elements"⟩)
        ∧ (∀ st, loaderInit "/proj/elements" ["ok.bst", "/abs.bst"] ≠ .ok st)) :=
  ⟨⟨by decide, by decide⟩,
    loaderInit_absolute_target "/proj/elements" ["ok.bst", "/abs.bst"] "/abs.bst"
      (by decide) (by decide)⟩

/-! ## Project reference store (`_projectrefs.py`) -/

/-- A ref node: the YAML mapping holding one source ref, modelled as an
association list of scalar fields.  Newly created nodes are the empty
mapping (line 161 of `_projectrefs.py`). -/
abbrev RefNode := List (String × String)

/-- The per-element list of ref nodes, indexed by source position. -/
abbrev ElementList := List RefNode

/-- The per-project mapping from element name to its ref-node list. -/
abbrev ProjectNode := List (String × ElementList)

/-- One of the two document trees held by `ProjectRefs`, rooted at the
`projects` key (which `load()` guarantees to exist, lines 88-90). -/
structure Toplevel where
  projects : List (String × ProjectNode)

/-- The state of a loaded `ProjectRefs`: the processed tree
(`toplevel_node`) and the save tree (`toplevel_save`).  When the file was
absent the two trees alias each other; that case is represented here by
two equal trees. -/
structure RefsState where
  toplevel_node : Toplevel
  toplevel_save : Toplevel

/-- Update (or append) the binding of `k` in an association list, the way
assignment to a Python dict key replaces the value in place. -/
def setAssoc [BEq kk] (l : List (kk × α)) (k : kk) (v : α) : List (kk × α) :=
  match l with
  | [] => [(k, v)]
  | (k2, v2) :: rest => if k2 == k then (k2, v) :: rest else (k2, v2) :: setAssoc rest k v

/-- `ProjectRefs._lookup` with `ensure=False` (lines 135-165): follow the
`projects → project → element → [source_index]` path, returning `none` as
soon as a key or index is missing, touching nothing. -/
def refsLookup (t : Toplevel) (project element : String) (idx : Nat) : Option RefNode :=
  match t.projects.lookup project with
  | none => none
  | some pn =>
    match pn.lookup element with
    | none => none
    | some lst => lst[idx]?

/-- The list padding performed on `IndexError` (line 161): extend the
element list with empty mappings up to and including `idx`. -/
def ensurePad (lst : ElementList) (idx : Nat) : ElementList :=
  if idx < lst.length then lst else lst ++ List.replicate (idx + 1 - lst.length) []

/-- `ProjectRefs._lookup` with `ensure=True` (lines 135-165): auto-create
the missing project mapping, element list and padding entries, and return
the (possibly pre-existing) node at `idx` together with the updated tree. -/
def refsLookupEnsure (t : Toplevel) (project element : String) (idx : Nat) :
    Toplevel × RefNode :=
  (⟨setAssoc t.projects project
      (setAssoc ((t.projects.lookup project).getD []) element
        (ensurePad ((((t.projects.lookup project).getD []).lookup element).getD []) idx))⟩,
    ((ensurePad ((((t.projects.lookup project).getD []).lookup element).getD []) idx)[idx]?).getD [])

/-- `ProjectRefs.lookup_ref` (lines 113-129): read from `toplevel_node`;
with `write=True` and no existing node, create one in `toplevel_save`.
The provenance redirection applied to a found node (lines 119-122) is an
external document-tree concern and the found node is returned as is. -/
def lookup_ref (st : RefsState) (project element : String) (idx : Nat) (write : Bool) :
    RefsState × Option RefNode :=
  if write then
    match refsLookup st.toplevel_node project element idx with
    | some n => (st, some n)
    | none =>
      (⟨st.toplevel_node, (refsLookupEnsure st.toplevel_save project element idx).1⟩,
        some (refsLookupEnsure st.toplevel_save project element idx).2)
  else (st, refsLookup st.toplevel_node project element idx)

theorem lookup_setAssoc_self [BEq kk] [LawfulBEq kk] (l : List (kk × α)) (k : kk) (v : α) :
    (setAssoc l k v).lookup k = some v := by
  induction l with
  | nil => simp [setAssoc]
  | cons hd tl ih =>
    obtain ⟨k2, v2⟩ := hd
    by_cases hk : k2 = k
    · subst hk; simp [setAssoc]
    · have h1 : (k2 == k) = false := beq_eq_false_iff_ne.mpr hk
      have h2 : (k == k2) = false := beq_eq_false_iff_ne.mpr (fun h => hk h.symm)
      simp [setAssoc, h1, h2, List.lookup_cons, ih]

theorem setAssoc_of_lookup_eq [BEq kk] [LawfulBEq kk] (l : List (kk × α)) (k : kk) (v : α)
    (h : l.lookup k = some v) : setAssoc l k v = l := by
  induction l with
  | nil => simp at h
  | cons hd tl ih =>
    obtain ⟨k2, v2⟩ := hd
    by_cases hk : k2 = k
    · subst hk
      simp only [List.lookup_cons, beq_self_eq_true, Option.some.injEq] at h
      simp [setAssoc, h]
    · have h1 : (k2 == k) = false := beq_eq_false_iff_ne.mpr hk
      have h2 : (k == k2) = false := beq_eq_false_iff_ne.mpr (fun h2 => hk h2.symm)
      simp only [List.lookup_cons, h2] at h
      simp [setAssoc, h1, ih h]

theorem ensurePad_length (lst : ElementList) (idx : Nat) :
    idx < (ensurePad lst idx).length := by
  unfold ensurePad
  by_cases h : idx < lst.length
  · simpa [h]
  · push_neg at h
    simp only [if_neg (by omega : ¬ idx < lst.length), List.length_append,
      List.length_replicate]
    omega

theorem ensurePad_of_lt (lst : ElementList) (idx : Nat) (h : idx < lst.length) :
    ensurePad lst idx = lst := by
  simp [ensurePad, h]

/-- After `ensure`, a plain lookup of the same triple finds the node that
`ensure` returned. -/
theorem refsLookupEnsure_found (t : Toplevel) (project element : String) (idx : Nat) :
    refsLookup (refsLookupEnsure t project element idx).1 project element idx =
      some (refsLookupEnsure t project element idx).2 := by
  unfold refsLookup refsLookupEnsure
  simp only [lookup_setAssoc_self]
  simp only [List.getElem?_eq_getElem (ensurePad_length _ idx), Option.getD_some]

/-- Creating the same triple twice changes nothing: `ensure` is idempotent,
so each triple maps to at most one ref node. -/
theorem refsLookupEnsure_idem (t : Toplevel) (project element : String) (idx : Nat) :
    refsLookupEnsure (refsLookupEnsure t project element idx).1 project element idx =
      refsLookupEnsure t project element idx := by
  have hpad : ∀ (lst : ElementList), ensurePad (ensurePad lst idx) idx = ensurePad lst idx :=
    fun lst => ensurePad_of_lt _ idx (ensurePad_length lst idx)
  conv_lhs => rw [refsLookupEnsure]
  simp only [refsLookupEnsure, lookup_setAssoc_self, Option.getD_some, hpad]
  rw [setAssoc_of_lookup_eq _ _ _ (lookup_setAssoc_self _ _ _),
    setAssoc_of_lookup_eq _ _ _ (lookup_setAssoc_self _ _ _)]

/-- C9: `lookup_ref` with `write=False` returns the existing node (or
`none` when an intermediate key or the index is missing) and leaves both
trees untouched; intermediate keys are created only on the `write=True`
path, which leaves the read tree unchanged, makes the node findable in the
save tree, and creates nothing on a repeated write. -/
theorem lookup_ref_spec (st : RefsState) (project element : String) (idx : Nat) :
    ((lookup_ref st project element idx false).1 = st
      ∧ (lookup_ref st project element idx false).2 =
          refsLookup st.toplevel_node project element idx)
    ∧ ((lookup_ref st project element idx true).1.toplevel_node = st.toplevel_node)
    ∧ (∀ n, refsLookup st.toplevel_node project element idx = some n →
        lookup_ref st project element idx true = (st, some n))
    ∧ (refsLookup st.toplevel_node project element idx = none →
        ∃ n, (lookup_ref st project element idx true).2 = some n
          ∧ refsLookup (lookup_ref st project element idx true).1.toplevel_save
              project element idx = some n
          ∧ refsLookupEnsure (lookup_ref st project element idx true).1.toplevel_save
              project element idx
              = ((lookup_ref st project element idx true).1.toplevel_save, n)) := by
  refine ⟨⟨rfl, rfl⟩, ?_, ?_, ?_⟩
  · unfold lookup_ref
    cases h : refsLookup st.toplevel_node project element idx <;> simp [h]
  · intro n hn
    unfold lookup_ref
    simp [hn]
  · intro hnone
    refine ⟨(refsLookupEnsure st.toplevel_save project element idx).2, ?_, ?_, ?_⟩
    · simp [lookup_ref, hnone]
    · simp only [lookup_ref, hnone, if_true]
      exact refsLookupEnsure_found st.toplevel_save project element idx
    · simp only [lookup_ref, hnone, if_true]
      exact refsLookupEnsure_idem st.toplevel_save project element idx

/-- Concrete instantiation of `lookup_ref_spec`: reading a missing triple
from an empty store changes nothing and returns `none`; writing it creates
the padded entry, which a second write does not duplicate. -/
theorem lookup_ref_spec_witness :
    (lookup_ref ⟨⟨[]⟩, ⟨[]⟩⟩ "proj" "elem.bst" 1 false = (⟨⟨[]⟩, ⟨[]⟩⟩, none))
    ∧ (lookup_ref ⟨⟨[]⟩, ⟨[]⟩⟩ "proj" "elem.bst" 1 true
        = (⟨⟨[]⟩, ⟨[("proj", [("elem.bst", [[], []])])]⟩⟩, some []))
    ∧ (refsLookupEnsure ⟨[("proj", [("elem.bst", [[], []])])]⟩ "proj" "elem.bst" 1
        = (⟨[("proj", [("elem.bst", [[], []])])]⟩, [])) := by
  have h := lookup_ref_spec ⟨⟨[]⟩, ⟨[]⟩⟩ "proj" "elem.bst" 1
  refine ⟨?_, rfl, ?_⟩
  · have h1 : (lookup_ref ⟨⟨[]⟩, ⟨[]⟩⟩ "proj" "elem.bst" 1 false).1 = ⟨⟨[]⟩, ⟨[]⟩⟩ := h.1.1
    have h2 := h.1.2
    rw [Prod.ext_iff]
    exact ⟨h1, h2⟩
  · have := refsLookupEnsure_idem (⟨[]⟩ : Toplevel) "proj" "elem.bst" 1
    exact this

/-! ## Dependency ordering (`Loader._sort_dependencies`, loader.py lines 288-349) -/

/-- Modelled from the spec: the `Dependency` value type of
`_loader/types.py` (not among the provided sources) — target element name,
optional junction qualifier (None for same-project dependencies), and the
dependency kind, one of the `Symbol` strings `build`, `runtime`, `all`. -/
structure Dependency where
  name : String
  junction : Option String
  dep_type : String
deriving DecidableEq

/-- Modelled from the spec: `LoadElement.full_name` of `_loader/loadelement.py`
(not among the provided sources) — the globally unique key combining
junction qualification with the local path. -/
def fullNameOf (d : Dependency) : String :=
  match d.junction with
  | none => d.name
  | some j => j ++ ":" ++ d.name

/-- One-or-more-step reachability in the full-name dependency edge list,
with fuel bounding the path length. -/
def reachB (g : List (String × List String)) : Nat → String → String → Bool
  | 0, _, _ => false
  | fuel+1, a, b =>
    ((g.lookup a).getD []).any (fun d => d == b || reachB g fuel d b)

/-- Modelled from the spec: `LoadElement.depends` of `_loader/loadelement.py`
(not among the provided sources) — whether the element named `a` depends
directly or transitively on the element named `b`; `_ensure_depends_cache`
stores the transitive closure of the direct-dependency relation.  A
dependency path never needs more than `g.length + 1` edges. -/
def depends (g : List (String × List String)) (a b : String) : Bool :=
  reachB g (g.length + 1) a b

/-- Python string comparison on two code points. -/
def charListLt : List Char → List Char → Bool
  | _, [] => false
  | [], _ :: _ => true
  | a :: as, b :: bs =>
    if a.toNat < b.toNat then true
    else if b.toNat < a.toNat then false
    else charListLt as bs

/-- Python string comparison: lexicographic on code points. -/
def strLt (a b : String) : Bool := charListLt a.data b.data

/-- `dependency_cmp` (loader.py lines 305-342), the comparator handed to
`cmp_to_key`: inter-element dependency first, then runtime-only last, then
local-name string comparison, then the junction block.  `g` is the
full-name dependency edge list consulted by `depends`. -/
def dependency_cmp (g : List (String × List String)) (dep_a dep_b : Dependency) : Int :=
  if depends g (fullNameOf dep_a) (fullNameOf dep_b) then 1
  else if depends g (fullNameOf dep_b) (fullNameOf dep_a) then -1
  else if dep_a.dep_type ≠ dep_b.dep_type ∧ dep_a.dep_type = "runtime" then 1
  else if dep_a.dep_type ≠ dep_b.dep_type ∧ dep_b.dep_type = "runtime" then -1
  else if strLt dep_b.name dep_a.name then 1
  else if strLt dep_a.name dep_b.name then -1
  else
    match dep_a.junction, dep_b.junction with
    | some ja, some jb => if strLt jb ja then 1 else if strLt ja jb then -1 else 0
    | some _, none => -1
    | none, some _ => 1
    | none, none => 0

/-! ### CPython `list.sort` with a comparator

`element.deps.sort(key=cmp_to_key(dependency_cmp))` (loader.py line 347)
delegates the order to CPython's Timsort.  For lists shorter than 64
elements — every dependency list under test here — `minrun` equals the
list length, so Timsort reduces to: detect one maximal initial run
(reversing a strictly descending run), then insert the remaining elements
one by one by binary insertion; no merge pass runs.  The definitions below
model exactly those two phases of `Objects/listobject.c`, including which
comparisons `binarysort` performs, because with a non-transitive
comparator the result depends on them. -/

/-- The longest weakly ascending continuation (CPython `count_run`,
ascending branch: keep going while not `a[i] < a[i-1]`). -/
def ascRun (cmp : α → α → Int) : α → List α → List α × List α
  | _, [] => ([], [])
  | prev, x :: xs =>
    if cmp x prev < 0 then ([], x :: xs)
    else
      let r := ascRun cmp x xs
      (x :: r.1, r.2)

/-- The longest strictly descending continuation (CPython `count_run`,
descending branch: keep going while `a[i] < a[i-1]`). -/
def descRun (cmp : α → α → Int) : α → List α → List α × List α
  | _, [] => ([], [])
  | prev, x :: xs =>
    if cmp x prev < 0 then
      let r := descRun cmp x xs
      (x :: r.1, r.2)
    else ([], x :: xs)

/-- CPython `count_run`: the maximal initial run, already reversed when it
was descending, together with the unprocessed tail. -/
def countRun (cmp : α → α → Int) : List α → List α × List α
  | [] => ([], [])
  | [x] => ([x], [])
  | x :: y :: xs =>
    if cmp y x < 0 then
      let r := descRun cmp y xs
      ((x :: y :: r.1).reverse, r.2)
    else
      let r := ascRun cmp y xs
      (x :: y :: r.1, r.2)

/-- The binary search of CPython `binarysort`: maintain `l ≤ pos ≤ r`,
compare the pivot with `a[l + (r-l)/2]`, move `r` down when the pivot is
smaller, `l` up past the midpoint otherwise.  Fuel dominates `r - l`. -/
def binPosF (cmp : α → α → Int) (pivot : α) (xs : List α) : Nat → Nat → Nat → Nat
  | 0, l, _ => l
  | fuel+1, l, r =>
    if l < r then
      if cmp pivot (xs.getD (l + (r - l) / 2) pivot) < 0 then
        binPosF cmp pivot xs fuel l (l + (r - l) / 2)
      else binPosF cmp pivot xs fuel (l + (r - l) / 2 + 1) r
    else l

/-- Insert at a position (list analogue of the `memmove` in `binarysort`). -/
def insertAt : Nat → α → List α → List α
  | 0, x, l => x :: l
  | _+1, x, [] => [x]
  | n+1, x, y :: l => y :: insertAt n x l

/-- One binary insertion step of `binarysort`. -/
def binInsert (cmp : α → α → Int) (sorted : List α) (x : α) : List α :=
  insertAt (binPosF cmp x sorted sorted.length 0 sorted.length) x sorted

/-- The insertion loop of `binarysort` over the elements after the run. -/
def binarysortAux (cmp : α → α → Int) : List α → List α → List α
  | sorted, [] => sorted
  | sorted, x :: xs => binarysortAux cmp (binInsert cmp sorted x) xs

/-- CPython `list.sort` with comparator `cmp`, in the regime where the list
is shorter than `minrun` (always the case for the dependency lists used
here): initial run detection followed by binary insertion. -/
def pySort (cmp : α → α → Int) (xs : List α) : List α :=
  binarysortAux cmp (countRun cmp xs).1 (countRun cmp xs).2

/-- The per-element body of `Loader._sort_dependencies` (loader.py
line 347): sort the element's direct dependency list with
`dependency_cmp`.  The surrounding depth-first recursion with the
`visited` memo (lines 298-303) only chooses the order in which elements
are sorted; it does not change any element's result, because the
comparator consults only the dependency relation, which reordering a list
does not alter. -/
def sortElementDeps (g : List (String × List String)) (deps : List Dependency) :
    List Dependency :=
  pySort (dependency_cmp g) deps

/-- The four-element example graph refuting C2: `x` depends on `a`, `b`,
`c`; `a` also depends (directly) on `c`. -/
def exSortGraph : List (String × List String) :=
  [("x", ["a", "b", "c"]), ("a", ["c"]), ("b", []), ("c", [])]

/-- C2 (refutation): on `exSortGraph`, `_sort_dependencies` leaves `x`'s
dependency list as `[a, b, c]` even though `a` transitively depends on
`c`: the comparator is not a total preorder (the dependency rule for the
pair `(a, c)` contradicts the name rule used for the pairs `(a, b)` and
`(b, c)`), and Timsort never compares `a` with `c`, so the dependency
`c` stays *after* its consumer `a` — contradicting the guarantee stated in
the claim and in the docstring of `_sort_dependencies` itself. -/
theorem sort_dependencies_violates_transitive_precedence :
    depends exSortGraph "a" "c" = true
    ∧ sortElementDeps exSortGraph
        [⟨"a", none, "build"⟩, ⟨"b", none, "build"⟩, ⟨"c", none, "build"⟩]
        = [⟨"a", none, "build"⟩, ⟨"b", none, "build"⟩, ⟨"c", none, "build"⟩]
    ∧ (sortElementDeps exSortGraph
        [⟨"a", none, "build"⟩, ⟨"b", none, "build"⟩, ⟨"c", none, "build"⟩])[0]?
        = some ⟨"a", none, "build"⟩
    ∧ (sortElementDeps exSortGraph
        [⟨"a", none, "build"⟩, ⟨"b", none, "build"⟩, ⟨"c", none, "build"⟩])[2]?
        = some ⟨"c", none, "build"⟩ := by
  refine ⟨by decide, ?_, ?_, ?_⟩ <;> rfl

/-- C3 (refutation of the first half, confirmation of the second): with no
inter-element dependency, equal dependency kinds and equal local names,
`dependency_cmp` sorts a junction-qualified dependency *before* the
same-project one (it returns -1 when only `dep_a` has a junction,
lines 336-339), contradicting the claim and the comment right above the
code; between two junction-qualified dependencies it is lexicographic on
the junction name as claimed. -/
theorem dependency_cmp_junction_rule :
    dependency_cmp [] ⟨"n", some "j", "build"⟩ ⟨"n", none, "build"⟩ = -1
    ∧ dependency_cmp [] ⟨"n", none, "build"⟩ ⟨"n", some "j", "build"⟩ = 1
    ∧ dependency_cmp [] ⟨"n", some "ja", "build"⟩ ⟨"n", some "jb", "build"⟩ = -1
    ∧ dependency_cmp [] ⟨"n", some "jb", "build"⟩ ⟨"n", some "ja", "build"⟩ = 1
    ∧ dependency_cmp [] ⟨"n", some "ja", "build"⟩ ⟨"n", some "ja", "build"⟩ = 0 := by
  refine ⟨?_, ?_, ?_, ?_, ?_⟩ <;> rfl

/-! ## Junction resolution (`Loader._get_loader`, loader.py lines 431-523) -/

/-- The outcome of attempting to load and materialize a junction element
locally in one loader: the whole block from `self._load_file(filename, ...)`
(line 454) through the construction of the child `Loader` (line 519) is
collapsed into one of: the child loader it produces (identified by a
pre-assigned id), a `MISSING_FILE` failure of `_load_file`, or any other
fatal `LoadError` raised on that path (non-junction kind, fetch needed,
inconsistent ref, invalid junction, ...). -/
inductive LocalJunction where
  | found (child : Nat)
  | missingFile
  | fatal (e : LoadErr)
deriving DecidableEq

/-- One loader in the junction-resolution tree: its parent (if any), the
project name (`self.project.name`, used in the `CONFLICTING_JUNCTION`
message), and the table of junction elements it can materialize locally
(a name missing from the table stands for `MISSING_FILE`). -/
structure JLoader where
  parent : Option Nat
  projectName : String
  localJunctions : List (String × LocalJunction)

/-- The `_loaders` caches of each loader, keyed by loader id then junction
name; an entry `none` is the absent sentinel stored at line 466. -/
abbrev JCaches := List (Nat × List (String × Option Nat))

/-- Read a loader's `_loaders` cache. -/
def cacheLookup (st : JCaches) (lid : Nat) (name : String) : Option (Option Nat) :=
  ((st.lookup lid).getD []).lookup name

/-- Write a loader's `_loaders` cache. -/
def cacheInsert (st : JCaches) (lid : Nat) (name : String) (v : Option Nat) : JCaches :=
  setAssoc st lid (setAssoc ((st.lookup lid).getD []) name v)

/-- The `CONFLICTING_JUNCTION` message of lines 439-441. -/
def conflictMsg (name projectName : String) : String :=
  "Conflicting junction " ++ name ++ " in subprojects, define junction in " ++ projectName

/-- The local part of `_get_loader` (lines 453-523), reached when neither
the cache nor a parent resolved the junction: attempt the local load; on
`MISSING_FILE`, re-raise at level 0 but cache the absent sentinel and
return `None` at nested levels; other errors are fatal; on success cache
and return the materialized child loader. -/
def getLoaderLocal (ln : JLoader) (lid : Nat) (name : String) (level : Nat)
    (st : JCaches) : Except LoadErr (JCaches × Option Nat) :=
  match ln.localJunctions.lookup name with
  | some (.found c) => .ok (cacheInsert st lid name (some c), some c)
  | some (.fatal e) => .error e
  | some .missingFile =>
    if level = 0 then .error ⟨.missingFile, name⟩
    else .ok (cacheInsert st lid name none, none)
  | none =>
    if level = 0 then .error ⟨.missingFile, name⟩
    else .ok (cacheInsert st lid name none, none)

/-- `Loader._get_loader` (loader.py lines 431-523): previously determined
results are served from the cache (the `None` sentinel raising
`CONFLICTING_JUNCTION`), then junctions in the parent take precedence over
local definitions, then the junction is loaded locally.  Fuel bounds the
ascent of the parent chain; an id missing from `tree` is outside the
model (`none`). -/
def getLoader (tree : List (Nat × JLoader)) :
    Nat → Nat → String → Nat → JCaches → Option (Except LoadErr (JCaches × Option Nat))
  | 0, _, _, _, _ => none
  | fuel+1, lid, name, level, st =>
    match tree.lookup lid with
    | none => none
    | some ln =>
      match cacheLookup st lid name with
      | some (some l) => some (.ok (st, some l))
      | some none => some (.error ⟨.conflictingJunction, conflictMsg name ln.projectName⟩)
      | none =>
        match ln.parent with
        | some p =>
          match getLoader tree fuel p name (level+1) st with
          | none => none
          | some (.error e) => some (.error e)
          | some (.ok (st2, some l)) => some (.ok (cacheInsert st2 lid name (some l), some l))
          | some (.ok (st2, none)) => some (getLoaderLocal ln lid name level st2)
        | none => some (getLoaderLocal ln lid name level st)

/-- C5: a loader with a parent delegates junction resolution to the parent
first; whenever the parent chain resolves the junction to a loader, that
loader is the result (cached locally), with no error — irrespective of the
loader's own `localJunctions` table, which is not consulted. -/
theorem getLoader_parent_precedence (tree : List (Nat × JLoader))
    (fuel lid level l p : Nat) (name : String) (ln : JLoader) (st st2 : JCaches)
    (hln : tree.lookup lid = some ln)
    (hparent : ln.parent = some p)
    (hcache : cacheLookup st lid name = none)
    (hp : getLoader tree fuel p name (level+1) st = some (.ok (st2, some l))) :
    getLoader tree (fuel+1) lid name level st
      = some (.ok (cacheInsert st2 lid name (some l), some l)) := by
  simp [getLoader, hln, hcache, hparent, hp]

/-- Concrete instantiation of `getLoader_parent_precedence`: the parent
defines junction `j` (materializing to loader 5), the subproject defines
its own `j` (which would materialize to loader 10); resolution from the
subproject yields the parent's loader 5 with no error. -/
theorem getLoader_parent_precedence_witness :
    getLoader
      [(0, ⟨none, "top", [("j", .found 5)]⟩), (1, ⟨some 0, "sub", [("j", .found 10)]⟩)]
      2 1 "j" 0 []
      = some (.ok ([(0, [("j", some 5)]), (1, [("j", some 5)])], some 5)) :=
  getLoader_parent_precedence
    [(0, ⟨none, "top", [("j", .found 5)]⟩), (1, ⟨some 0, "sub", [("j", .found 10)]⟩)]
    1 1 0 5 0 "j" ⟨some 0, "sub", [("j", .found 10)]⟩ [] [(0, [("j", some 5)])]
    rfl rfl rfl rfl

/-- C6: a junction whose local load hits `MISSING_FILE` is fatal at
level 0 but at a nested level yields `None` and caches the absent
sentinel; the sentinel is what a later lookup of the same name through the
same loader finds, which raises `CONFLICTING_JUNCTION` naming the project
that should define the overriding junction.  The last two conjuncts tie
`getLoaderLocal` into `getLoader`: a fresh lookup reaches the local path
(directly, or after the parent chain returned `None`). -/
theorem getLoader_missing_junction_conflict (tree : List (Nat × JLoader))
    (fuel lid level p : Nat) (name : String) (ln : JLoader) (st st2 : JCaches)
    (hln : tree.lookup lid = some ln)
    (hmiss : ln.localJunctions.lookup name = some .missingFile
      ∨ ln.localJunctions.lookup name = none) :
    (getLoaderLocal ln lid name 0 st = .error ⟨.missingFile, name⟩)
    ∧ (getLoaderLocal ln lid name (level+1) st = .ok (cacheInsert st lid name none, none))
    ∧ (cacheLookup (cacheInsert st lid name none) lid name = some none)
    ∧ (cacheLookup st lid name = some none →
        getLoader tree (fuel+1) lid name level st
          = some (.error ⟨.conflictingJunction, conflictMsg name ln.projectName⟩))
    ∧ (cacheLookup st lid name = none → ln.parent = none →
        getLoader tree (fuel+1) lid name level st = some (getLoaderLocal ln lid name level st))
    ∧ (cacheLookup st lid name = none → ln.parent = some p →
        getLoader tree fuel p name (level+1) st = some (.ok (st2, none)) →
        getLoader tree (fuel+1) lid name level st = some (getLoaderLocal ln lid name level st2)) := by
  refine ⟨?_, ?_, ?_, ?_, ?_, ?_⟩
  · rcases hmiss with h | h <;> simp [getLoaderLocal, h]
  · rcases hmiss with h | h <;> simp [getLoaderLocal, h]
  · unfold cacheLookup cacheInsert
    rw [lookup_setAssoc_self]
    simp [lookup_setAssoc_self]
  · intro hc
    simp [getLoader, hln, hc]
  · intro hc hpar
    simp [getLoader, hln, hc, hpar]
  · intro hc hpar hp
    simp [getLoader, hln, hc, hpar, hp]

/-- Concrete instantiation of `getLoader_missing_junction_conflict`: the
top-level project defines no junction `j`; sibling subprojects A and B
each define their own `j` with different targets.  Resolving `j` from A
succeeds (caching the absent sentinel in the top-level loader); the later
resolution from B then fails with `CONFLICTING_JUNCTION` naming the
top-level project. -/
theorem getLoader_missing_junction_conflict_witness :
    (getLoaderLocal ⟨none, "top", []⟩ 0 "j" 1 [] = .ok ([(0, [("j", none)])], none))
    ∧ (getLoader
        [(0, ⟨none, "top", []⟩), (1, ⟨some 0, "subA", [("j", .found 10)]⟩),
          (2, ⟨some 0, "subB", [("j", .found 20)]⟩)]
        3 1 "j" 0 []
        = some (.ok ([(0, [("j", none)]), (1, [("j", some 10)])], some 10)))
    ∧ (getLoader
        [(0, ⟨none, "top", []⟩), (1, ⟨some 0, "subA", [("j", .found 10)]⟩),
          (2, ⟨some 0, "subB", [("j", .found 20)]⟩)]
        3 2 "j" 0 [(0, [("j", none)]), (1, [("j", some 10)])]
        = some (.error ⟨.conflictingJunction, conflictMsg "j" "top"⟩))
    ∧ (getLoaderLocal ⟨none, "top", []⟩ 0 "j" 0 [] = .error ⟨.missingFile, "j"⟩) := by
  refine ⟨?_, by rfl, by rfl, ?_⟩
  · exact (getLoader_missing_junction_conflict
      [(0, ⟨none, "top", []⟩)] 0 0 0 0 "j" ⟨none, "top", []⟩ [] []
      rfl (Or.inr rfl)).2.1
  · exact (getLoader_missing_junction_conflict
      [(0, ⟨none, "top", []⟩)] 0 0 0 0 "j" ⟨none, "top", []⟩ [] []
      rfl (Or.inr rfl)).1

/-! ## Loading and collection (`Loader._load_file` lines 196-230,
`Loader._collect_element` lines 361-419)

This cluster models a single project: `_get_loader_for_dep` returns `self`
for a junction-less dependency (lines 535-540), and that is the only case
exercised here — a junction-qualified dependency delegates to the loader
tree modelled above, and makes these functions answer `none` (outside this
single-loader model) rather than something unfaithful. -/

/-- One source entry of an element node: its `kind` selector, optional
`directory` selector, and the remaining configuration fields. -/
structure SourceNode where
  kind : String
  directory : Option String
  rest : List (String × String)
deriving DecidableEq

/-- The loader-relevant content of one parsed element file (the YAML node
plus the dependency extraction `LoadElement` performs): its `kind` field,
its source list and its dependency list.  The config, variables,
environment, env-nocache, public and sandbox mappings that
`_collect_element` copies verbatim through `_yaml.node_get` carry no
behaviour and are not represented. -/
structure ENode where
  kind : String
  sources : List SourceNode
  deps : List Dependency
deriving DecidableEq

/-- A resolved `MetaSource` (lines 378-391): element name, source index,
kind, the source configuration with the `kind`/`directory` selector keys
stripped, and the optional directory.  The index is the position `i` of
the loop; the source's `sources.index(source)` call returns the same
position whenever the stripped sources are pairwise distinct. -/
structure MetaSource where
  elementName : String
  index : Nat
  kind : String
  config : List (String × String)
  directory : Option String
deriving DecidableEq

/-- A resolved `MetaElement` (lines 393-401): identity, kind, sources and
the build/runtime dependency lists.  Sharing by object reference in Python
is rendered by reference-by-name: the dependency lists hold the names
under which the depended-on MetaElements are memoized in
`_meta_elements`. -/
structure MetaElement where
  name : String
  kind : String
  sources : List MetaSource
  build_dependencies : List String
  dependencies : List String
deriving DecidableEq

/-- The `MetaSource` extraction loop of `_collect_element`
(lines 378-391). -/
def mkMetaSources (elementName : String) (sources : List SourceNode) : List MetaSource :=
  sources.enum.map (fun p => ⟨elementName, p.1, p.2.kind, p.2.rest, p.2.directory⟩)

/-- The state `_collect_element` threads: the `_meta_elements` memo table
and, for the single-instantiation argument, the log of element names in
the order their `MetaElement` was constructed. -/
structure CollectState where
  meta_elements : List (String × MetaElement)
  built : List String

/-- The body of the dependency loop of `_collect_element`
(lines 407-417), as a fold step over the accumulated state and
build/runtime name lists; `rec` is the recursive collection call and
`kind` the current element's kind, whose `junction` check sits inside the
loop.  A non-`ok` accumulator passes through unchanged (the Python loop
has already raised or the model has already given up). -/
def collectStep (rec : String → CollectState → Option (Except LoadErr (CollectState × String)))
    (kind : String)
    (acc : Option (Except LoadErr (CollectState × List String × List String)))
    (dep : Dependency) : Option (Except LoadErr (CollectState × List String × List String)) :=
  match acc with
  | some (.ok (st2, bd, rd)) =>
    if kind == "junction" then
      some (.error ⟨.invalidData, "Junctions do not support dependencies"⟩)
    else
      match dep.junction with
      | some _ => none
      | none =>
        match rec dep.name st2 with
        | none => none
        | some (.error e) => some (.error e)
        | some (.ok (st3, depName)) =>
          some (.ok (st3,
            bd ++ (if dep.dep_type == "runtime" then [] else [depName]),
            rd ++ (if dep.dep_type == "build" then [] else [depName])))
  | other => other

/-- `Loader._collect_element` (lines 361-419): serve the memoized
MetaElement if present; otherwise construct it (sources first), memoize it
*before* descending, then walk the sorted dependency list — raising
`INVALID_DATA` inside the loop when the current element's kind is
`junction` — and append each collected dependency to the build list
(unless runtime-only) and to the runtime list (unless build-only).
Returns the name under which the result is memoized.  `none` means out of
fuel, a dependency table miss (impossible after the load pass), or a
junction-qualified dependency (outside this single-loader model). -/
def collectElement (g : List (String × ENode)) :
    Nat → String → CollectState → Option (Except LoadErr (CollectState × String))
  | 0, _, _ => none
  | fuel+1, element_name, st =>
    match st.meta_elements.lookup element_name with
    | some _ => some (.ok (st, element_name))
    | none =>
      match g.lookup element_name with
      | none => none
      | some node =>
        let st1 : CollectState :=
          ⟨setAssoc st.meta_elements element_name
            ⟨element_name, node.kind, mkMetaSources element_name node.sources, [], []⟩,
            st.built ++ [element_name]⟩
        match node.deps.foldl
          (collectStep (fun n st2 => collectElement g fuel n st2) node.kind)
          (some (.ok (st1, ([] : List String), ([] : List String)))) with
        | none => none
        | some (.error e) => some (.error e)
        | some (.ok (st2, bd, rd)) =>
          some (.ok (⟨setAssoc st2.meta_elements element_name
            ⟨element_name, node.kind, mkMetaSources element_name node.sources, bd, rd⟩,
            st2.built⟩, element_name))

/-- The body of the dependency loop of `_load_file` (lines 216-228) as a
fold step over the `_elements` cache: load the dependency through `rec`,
then reject it with `INVALID_DATA` when its element is of kind
`junction`.  A non-`ok` accumulator passes through unchanged. -/
def loadStep (rec : String → List (String × ENode) → Option (Except LoadErr (List (String × ENode))))
    (acc : Option (Except LoadErr (List (String × ENode))))
    (dep : Dependency) : Option (Except LoadErr (List (String × ENode))) :=
  match acc with
  | some (.ok cache2) =>
    match dep.junction with
    | some _ => none
    | none =>
      match rec dep.name cache2 with
      | none => none
      | some (.error e) => some (.error e)
      | some (.ok cache3) =>
        match cache3.lookup dep.name with
        | none => none
        | some depNode =>
          if depNode.kind == "junction" then
            some (.error ⟨.invalidData, "Cannot depend on junction"⟩)
          else some (.ok cache3)
  | other => other

/-- `Loader._load_file` (lines 196-230): silently return an already loaded
file; otherwise parse it (`MISSING_FILE` when absent), cache the element
*before* descending, then load each dependency in order and raise
`INVALID_DATA` when the dependency's element is of kind `junction`.  The
result is the updated `_elements` cache.  `none` means out of fuel or a
junction-qualified dependency (outside this single-loader model). -/
def loadFile (files : List (String × ENode)) :
    Nat → String → List (String × ENode) → Option (Except LoadErr (List (String × ENode)))
  | 0, _, _ => none
  | fuel+1, filename, cache =>
    match cache.lookup filename with
    | some _ => some (.ok cache)
    | none =>
      match files.lookup filename with
      | none => some (.error ⟨.missingFile, filename⟩)
      | some node =>
        node.deps.foldl (loadStep (fun f cache2 => loadFile files fuel f cache2))
          (some (.ok (setAssoc cache filename node)))

theorem lookup_setAssoc_ne [BEq kk] [LawfulBEq kk] (l : List (kk × α)) (k k2 : kk) (v : α)
    (h : k2 ≠ k) : (setAssoc l k v).lookup k2 = l.lookup k2 := by
  have hbk : (k2 == k) = false := beq_eq_false_iff_ne.mpr h
  induction l with
  | nil => simp [setAssoc, List.lookup_cons, hbk]
  | cons hd tl ih =>
    obtain ⟨k3, v3⟩ := hd
    by_cases hk : (k3 == k) = true
    · have h3 : k3 = k := eq_of_beq hk
      subst h3
      simp only [setAssoc, if_pos hk, List.lookup_cons, hbk]
    · simp only [setAssoc, hk, Bool.false_eq_true, if_false, List.lookup_cons]
      by_cases h23 : (k2 == k3) = true
      · simp [h23]
      · simp only [Bool.not_eq_true] at h23
        simp [h23, ih]

theorem isSome_lookup_setAssoc [BEq kk] [LawfulBEq kk] (l : List (kk × α)) (k k2 : kk) (v : α) :
    ((setAssoc l k v).lookup k2).isSome = true ↔ k2 = k ∨ (l.lookup k2).isSome = true := by
  by_cases h : k2 = k
  · subst h; simp [lookup_setAssoc_self]
  · rw [lookup_setAssoc_ne l k k2 v h]; simp [h]

theorem lookup_setAssoc_cases [BEq kk] [LawfulBEq kk] (l : List (kk × α)) (k k2 : kk) (v w : α)
    (h : (setAssoc l k v).lookup k2 = some w) :
    (k2 = k ∧ w = v) ∨ (k2 ≠ k ∧ l.lookup k2 = some w) := by
  by_cases hk : k2 = k
  · subst hk
    rw [lookup_setAssoc_self] at h
    exact Or.inl ⟨rfl, (Option.some.inj h).symm⟩
  · exact Or.inr ⟨hk, by rw [← lookup_setAssoc_ne l k k2 v hk]; exact h⟩

/-- The single-instantiation invariant of the collection pass: the
construction log has no duplicates and an element is memoized exactly when
it has been constructed. -/
def CInv (st : CollectState) : Prop :=
  st.built.Nodup ∧ ∀ m, ((st.meta_elements.lookup m).isSome = true ↔ m ∈ st.built)

theorem foldl_collectStep_none (rec : String → CollectState → Option (Except LoadErr (CollectState × String)))
    (kind : String) (ds : List Dependency) :
    ds.foldl (collectStep rec kind) none = none := by
  induction ds with
  | nil => rfl
  | cons d ds ih => simpa [List.foldl_cons, collectStep] using ih

theorem foldl_collectStep_error (rec : String → CollectState → Option (Except LoadErr (CollectState × String)))
    (kind : String) (e : LoadErr) (ds : List Dependency) :
    ds.foldl (collectStep rec kind) (some (.error e)) = some (.error e) := by
  induction ds with
  | nil => rfl
  | cons d ds ih => simpa [List.foldl_cons, collectStep] using ih

theorem foldl_collectStep_inv (rec : String → CollectState → Option (Except LoadErr (CollectState × String)))
    (kind : String)
    (hrec : ∀ n st st' r, CInv st → rec n st = some (.ok (st', r)) →
      CInv st' ∧ (∀ m, m ∈ st.built → m ∈ st'.built)) :
    ∀ (ds : List Dependency) (st2 : CollectState) (bd rd : List String)
      (st3 : CollectState) (bd' rd' : List String),
      CInv st2 →
      ds.foldl (collectStep rec kind) (some (.ok (st2, bd, rd))) = some (.ok (st3, bd', rd')) →
      CInv st3 ∧ (∀ m, m ∈ st2.built → m ∈ st3.built) := by
  intro ds
  induction ds with
  | nil =>
    intro st2 bd rd st3 bd' rd' hinv h
    simp only [List.foldl_nil, Option.some.injEq, Except.ok.injEq, Prod.mk.injEq] at h
    obtain ⟨h1, -, -⟩ := h
    subst h1
    exact ⟨hinv, fun m hm => hm⟩
  | cons d ds ih =>
    intro st2 bd rd st3 bd' rd' hinv h
    rw [List.foldl_cons] at h
    by_cases hj : (kind == "junction") = true
    · rw [show collectStep rec kind (some (.ok (st2, bd, rd))) d
          = some (.error ⟨.invalidData, "Junctions do not support dependencies"⟩) by
            simp [collectStep, hj]] at h
      rw [foldl_collectStep_error] at h
      simp at h
    · cases hdj : d.junction with
      | some j =>
        rw [show collectStep rec kind (some (.ok (st2, bd, rd))) d = none by
          simp [collectStep, hj, hdj]] at h
        rw [foldl_collectStep_none] at h
        simp at h
      | none =>
        cases hr : rec d.name st2 with
        | none =>
          rw [show collectStep rec kind (some (.ok (st2, bd, rd))) d = none by
            simp [collectStep, hj, hdj, hr]] at h
          rw [foldl_collectStep_none] at h
          simp at h
        | some res =>
          cases res with
          | error e =>
            rw [show collectStep rec kind (some (.ok (st2, bd, rd))) d = some (.error e) by
              simp [collectStep, hj, hdj, hr]] at h
            rw [foldl_collectStep_error] at h
            simp at h
          | ok p =>
            obtain ⟨stx, depName⟩ := p
            rw [show collectStep rec kind (some (.ok (st2, bd, rd))) d
                = some (.ok (stx,
                    bd ++ (if d.dep_type == "runtime" then [] else [depName]),
                    rd ++ (if d.dep_type == "build" then [] else [depName]))) by
              simp [collectStep, hj, hdj, hr]] at h
            obtain ⟨hx1, hx2⟩ := hrec d.name st2 stx depName hinv hr
            obtain ⟨hy1, hy2⟩ := ih stx _ _ st3 bd' rd' hx1 h
            exact ⟨hy1, fun m hm => hy2 m (hx2 m hm)⟩

/-- C4: the collection pass instantiates each element at most once: from
any state satisfying the single-instantiation invariant (in particular the
initial empty state), a successful `_collect_element` run preserves it —
the construction log stays duplicate-free and the memo table holds exactly
the constructed elements — and never forgets a constructed element.  Each
dependency list entry is the name of the unique memoized MetaElement, so
all consumers reference that one instance. -/
theorem collect_element_single_instantiation (g : List (String × ENode)) :
    ∀ (fuel : Nat) (n : String) (st st' : CollectState) (r : String),
      CInv st →
      collectElement g fuel n st = some (.ok (st', r)) →
      CInv st' ∧ (∀ m, m ∈ st.built → m ∈ st'.built) := by
  intro fuel
  induction fuel with
  | zero => intro n st st' r hinv h; simp [collectElement] at h
  | succ fuel ih =>
    intro n st st' r hinv h
    rw [collectElement] at h
    cases hmemo : st.meta_elements.lookup n with
    | some me =>
      simp only [hmemo, Option.some.injEq, Except.ok.injEq, Prod.mk.injEq] at h
      obtain ⟨h1, -⟩ := h
      subst h1
      exact ⟨hinv, fun m hm => hm⟩
    | none =>
      simp only [hmemo] at h
      cases hg : g.lookup n with
      | none => simp [hg] at h
      | some node =>
        simp only [hg] at h
        have hnmem : n ∉ st.built := by
          intro hmem
          have := (hinv.2 n).mpr hmem
          rw [hmemo] at this
          simp at this
        have hinv1 : CInv ⟨setAssoc st.meta_elements n
            ⟨n, node.kind, mkMetaSources n node.sources, [], []⟩, st.built ++ [n]⟩ := by
          constructor
          · simp [List.nodup_append, hinv.1, hnmem]
          · intro m
            rw [isSome_lookup_setAssoc]
            simp only [List.mem_append, List.mem_singleton]
            rw [hinv.2 m]
            tauto
        cases hfold : node.deps.foldl
            (collectStep (fun n st2 => collectElement g fuel n st2) node.kind)
            (some (.ok (⟨setAssoc st.meta_elements n
              ⟨n, node.kind, mkMetaSources n node.sources, [], []⟩, st.built ++ [n]⟩,
              ([] : List String), ([] : List String)))) with
        | none => rw [hfold] at h; simp at h
        | some res =>
          rw [hfold] at h
          cases res with
          | error e => simp at h
          | ok p =>
            obtain ⟨st2, bd, rd⟩ := p
            simp only [Option.some.injEq, Except.ok.injEq, Prod.mk.injEq] at h
            obtain ⟨h1, -⟩ := h
            obtain ⟨hstinv, hstmono⟩ := foldl_collectStep_inv _ node.kind
              (fun a b c d hi he => ih a b c d hi he) node.deps _ _ _ st2 bd rd hinv1 hfold
            have hnfin : n ∈ st2.built := hstmono n (by simp)
            subst h1
            constructor
            · constructor
              · exact hstinv.1
              · intro m
                rw [isSome_lookup_setAssoc]
                constructor
                · intro hcase
                  rcases hcase with rfl | hs
                  · exact hnfin
                  · exact (hstinv.2 m).mp hs
                · intro hm
                  exact Or.inr ((hstinv.2 m).mpr hm)
            · intro m hm
              exact hstmono m (by simp [hm])

/-- The diamond element graph A→{B,C}, B→D, C→D of the spec's testable
property, with `all`-kind dependencies. -/
def diamondG : List (String × ENode) :=
  [("a", ⟨"import", [], [⟨"b", none, "all"⟩, ⟨"c", none, "all"⟩]⟩),
   ("b", ⟨"import", [], [⟨"d", none, "all"⟩]⟩),
   ("c", ⟨"import", [], [⟨"d", none, "all"⟩]⟩),
   ("d", ⟨"import", [], []⟩)]

/-- Concrete instantiation of `collect_element_single_instantiation` on the
diamond graph: D is constructed exactly once, and B's and C's dependency
lists both reference the single memoized MetaElement for D. -/
theorem collect_element_single_instantiation_witness :
    CInv ⟨[], []⟩
    ∧ (match collectElement diamondG 5 "a" ⟨[], []⟩ with
        | some (.ok (st, _)) =>
            (st.built == ["a", "b", "d", "c"])
            && ((st.meta_elements.lookup "b").all (fun me => me.dependencies == ["d"]))
            && ((st.meta_elements.lookup "c").all (fun me => me.dependencies == ["d"]))
            && ((st.meta_elements.lookup "d").isSome)
        | _ => false) = true
    ∧ (["a", "b", "d", "c"] : List String).Nodup := by
  have hinv : CInv ⟨[], []⟩ := by
    constructor
    · exact List.nodup_nil
    · intro m; simp [List.lookup]
  refine ⟨hinv, by rfl, ?_⟩
  · have hres : collectElement diamondG 5 "a" ⟨[], []⟩
        = some (.ok (⟨[("a", ⟨"a", "import", [], ["b", "c"], ["b", "c"]⟩),
            ("b", ⟨"b", "import", [], ["d"], ["d"]⟩),
            ("d", ⟨"d", "import", [], [], []⟩),
            ("c", ⟨"c", "import", [], ["d"], ["d"]⟩)],
            ["a", "b", "d", "c"]⟩, "a")) := by rfl
    exact (collect_element_single_instantiation diamondG 5 "a" ⟨[], []⟩ _ "a" hinv hres).1.1

/-- C7 (refutation): `_collect_element` itself does *not* reject an element
of kind `junction` reached as a dependency — collecting `p` (kind
`import`) with dependency `j` (kind `junction`) succeeds and memoizes a
MetaElement for `j`; the junction-as-dependency rejection lives in
`_load_file` (lines 225-228), while the collection-pass check at
lines 407-410 fires only when the *current* element's kind is `junction`. -/
theorem collect_element_accepts_junction_dep :
    (match collectElement
        [("p", ⟨"import", [], [⟨"j", none, "all"⟩]⟩), ("j", ⟨"junction", [], []⟩)]
        3 "p" ⟨[], []⟩ with
      | some (.ok (st, _)) =>
          (st.meta_elements.lookup "j").isSome && (st.built == ["p", "j"])
      | _ => false) = true := by rfl

/-- A cache entry whose dependencies have all been vetted by the load
pass: none is junction-qualified out of this model, each resolves in the
cache, and none resolves to an element of kind `junction`. -/
def DepsChecked (cache : List (String × ENode)) (nd : ENode) : Prop :=
  ∀ dep ∈ nd.deps, dep.junction = none
    ∧ ∃ dn, cache.lookup dep.name = some dn ∧ dn.kind ≠ "junction"

/-- Cache extension: every existing entry is preserved (the load pass only
ever adds fresh entries). -/
def CacheExt (c c2 : List (String × ENode)) : Prop :=
  ∀ m nd, c.lookup m = some nd → c2.lookup m = some nd

theorem depsChecked_mono (c c2 : List (String × ENode)) (nd : ENode)
    (h : DepsChecked c nd) (hext : CacheExt c c2) : DepsChecked c2 nd := by
  intro dep hdep
  obtain ⟨h1, dn, h2, h3⟩ := h dep hdep
  exact ⟨h1, dn, hext _ _ h2, h3⟩

theorem foldl_loadStep_none (rec : String → List (String × ENode) → Option (Except LoadErr (List (String × ENode))))
    (ds : List Dependency) : ds.foldl (loadStep rec) none = none := by
  induction ds with
  | nil => rfl
  | cons d ds ih => simpa [List.foldl_cons, loadStep] using ih

theorem foldl_loadStep_error (rec : String → List (String × ENode) → Option (Except LoadErr (List (String × ENode))))
    (e : LoadErr) (ds : List Dependency) :
    ds.foldl (loadStep rec) (some (.error e)) = some (.error e) := by
  induction ds with
  | nil => rfl
  | cons d ds ih => simpa [List.foldl_cons, loadStep] using ih

theorem foldl_loadStep_inv (rec : String → List (String × ENode) → Option (Except LoadErr (List (String × ENode))))
    (hrec : ∀ f c c2, rec f c = some (.ok c2) →
      CacheExt c c2 ∧ (∀ m nd, c2.lookup m = some nd → c.lookup m = some nd ∨ DepsChecked c2 nd)) :
    ∀ (ds : List Dependency) (c c2 : List (String × ENode)),
      ds.foldl (loadStep rec) (some (.ok c)) = some (.ok c2) →
      CacheExt c c2
      ∧ (∀ m nd, c2.lookup m = some nd → c.lookup m = some nd ∨ DepsChecked c2 nd)
      ∧ (∀ dep ∈ ds, dep.junction = none
          ∧ ∃ dn, c2.lookup dep.name = some dn ∧ dn.kind ≠ "junction") := by
  intro ds
  induction ds with
  | nil =>
    intro c c2 h
    simp only [List.foldl_nil, Option.some.injEq, Except.ok.injEq] at h
    subst h
    exact ⟨fun m nd hm => hm, fun m nd hm => Or.inl hm, by simp⟩
  | cons d ds ih =>
    intro c c2 h
    rw [List.foldl_cons] at h
    cases hdj : d.junction with
    | some j =>
      rw [show loadStep rec (some (.ok c)) d = none by simp [loadStep, hdj]] at h
      rw [foldl_loadStep_none] at h
      simp at h
    | none =>
      cases hr : rec d.name c with
      | none =>
        rw [show loadStep rec (some (.ok c)) d = none by simp [loadStep, hdj, hr]] at h
        rw [foldl_loadStep_none] at h
        simp at h
      | some res =>
        cases res with
        | error e =>
          rw [show loadStep rec (some (.ok c)) d = some (.error e) by
            simp [loadStep, hdj, hr]] at h
          rw [foldl_loadStep_error] at h
          simp at h
        | ok c1 =>
          cases hdn : c1.lookup d.name with
          | none =>
            rw [show loadStep rec (some (.ok c)) d = none by
              simp [loadStep, hdj, hr, hdn]] at h
            rw [foldl_loadStep_none] at h
            simp at h
          | some depNode =>
            by_cases hkind : (depNode.kind == "junction") = true
            · rw [show loadStep rec (some (.ok c)) d
                  = some (.error ⟨.invalidData, "Cannot depend on junction"⟩) by
                simp [loadStep, hdj, hr, hdn, hkind]] at h
              rw [foldl_loadStep_error] at h
              simp at h
            · rw [show loadStep rec (some (.ok c)) d = some (.ok c1) by
                simp [loadStep, hdj, hr, hdn, hkind]] at h
              obtain ⟨hx1, hx2⟩ := hrec d.name c c1 hr
              obtain ⟨hy1, hy2, hy3⟩ := ih c1 c2 h
              refine ⟨fun m nd hm => hy1 m nd (hx1 m nd hm), ?_, ?_⟩
              · intro m nd hm
                rcases hy2 m nd hm with hin | hchk
                · rcases hx2 m nd hin with hin2 | hchk2
                  · exact Or.inl hin2
                  · exact Or.inr (depsChecked_mono c1 c2 nd hchk2 hy1)
                · exact Or.inr hchk
              · intro dep hdep
                rcases List.mem_cons.mp hdep with rfl | hmem
                · refine ⟨hdj, depNode, hy1 _ _ hdn, ?_⟩
                  simpa using hkind
                · exact hy3 dep hmem

/-- A successful `_load_file` run only extends the element cache, and
every entry it adds has had each of its dependencies loaded and vetted
not to be of kind `junction`. -/
theorem loadFile_ok_spec (files : List (String × ENode)) :
    ∀ (fuel : Nat) (f : String) (cache cache2 : List (String × ENode)),
      loadFile files fuel f cache = some (.ok cache2) →
      CacheExt cache cache2
      ∧ (∀ m nd, cache2.lookup m = some nd → cache.lookup m = some nd ∨ DepsChecked cache2 nd) := by
  intro fuel
  induction fuel with
  | zero => intro f cache cache2 h; simp [loadFile] at h
  | succ fuel ih =>
    intro f cache cache2 h
    rw [loadFile] at h
    cases hcache : cache.lookup f with
    | some nd =>
      simp only [hcache, Option.some.injEq, Except.ok.injEq] at h
      subst h
      exact ⟨fun m nd hm => hm, fun m nd hm => Or.inl hm⟩
    | none =>
      simp only [hcache] at h
      cases hfile : files.lookup f with
      | none => simp [hfile] at h
      | some node =>
        simp only [hfile] at h
        have hext0 : CacheExt cache (setAssoc cache f node) := by
          intro m nd hm
          have hne : m ≠ f := by
            intro heq; subst heq; rw [hcache] at hm; exact Option.noConfusion hm
          rw [lookup_setAssoc_ne cache f m node hne]
          exact hm
        obtain ⟨h1, h2, h3⟩ := foldl_loadStep_inv _
          (fun a b c hr => ih a b c hr) node.deps (setAssoc cache f node) cache2 h
        refine ⟨fun m nd hm => h1 m nd (hext0 m nd hm), ?_⟩
        intro m nd hm
        rcases h2 m nd hm with hin | hchk
        · rcases lookup_setAssoc_cases cache f m node nd hin with ⟨rfl, rfl⟩ | ⟨hne, hold⟩
          · exact Or.inr h3
          · exact Or.inl hold
        · exact Or.inr hchk

/-- C7 (amended): junctions may not take part in the dependency graph, but
the two rejection sites differ from the claim's placement: the *load* pass
(`_load_file`, lines 225-228) raises `INVALID_DATA` for any dependency
whose element has kind `junction` — so a successful load leaves no
junction dependency in the element table — while the *collection* pass
(lines 407-410) raises `INVALID_DATA` when the element being collected is
itself a junction and declares dependencies. -/
theorem junction_dependency_rejection (files g : List (String × ENode)) (fuel : Nat) :
    (∀ (n : String) (node : ENode) (d : Dependency) (ds : List Dependency) (st : CollectState),
        g.lookup n = some node → node.kind = "junction" → node.deps = d :: ds →
        st.meta_elements.lookup n = none →
        collectElement g (fuel+1) n st
          = some (.error ⟨.invalidData, "Junctions do not support dependencies"⟩))
    ∧ (∀ (f : String) (cache2 : List (String × ENode)),
        loadFile files fuel f [] = some (.ok cache2) →
        ∀ (m : String) (nd : ENode), cache2.lookup m = some nd → DepsChecked cache2 nd) := by
  constructor
  · intro n node d ds st hg hkind hdeps hmemo
    rw [collectElement]
    simp only [hmemo, hg, hdeps]
    rw [List.foldl_cons]
    rw [show collectStep (fun a b => collectElement g fuel a b) node.kind
        (some (.ok (⟨setAssoc st.meta_elements n
          ⟨n, node.kind, mkMetaSources n node.sources, [], []⟩, st.built ++ [n]⟩, [], []))) d
        = some (.error ⟨.invalidData, "Junctions do not support dependencies"⟩) by
      simp [collectStep, hkind]]
    rw [foldl_collectStep_error]
  · intro f cache2 h m nd hm
    rcases (loadFile_ok_spec files fuel f [] cache2 h).2 m nd hm with hin | hchk
    · simp [List.lookup] at hin
    · exact hchk

/-- Concrete instantiation of `junction_dependency_rejection`: collecting a
junction element that declares a dependency fails with `INVALID_DATA`, and
after a successful load of `p` (which depends on `q`), every cached
element's dependencies are vetted non-junction. -/
theorem junction_dependency_rejection_witness :
    (collectElement [("j", ⟨"junction", [], [⟨"x", none, "all"⟩]⟩), ("x", ⟨"import", [], []⟩)]
        1 "j" ⟨[], []⟩
        = some (.error ⟨.invalidData, "Junctions do not support dependencies"⟩))
    ∧ DepsChecked
        [("p", ⟨"import", [], [⟨"q", none, "all"⟩]⟩), ("q", ⟨"import", [], []⟩)]
        ⟨"import", [], [⟨"q", none, "all"⟩]⟩ := by
  constructor
  · exact (junction_dependency_rejection
      [("p", ⟨"import", [], [⟨"q", none, "all"⟩]⟩), ("q", ⟨"import", [], []⟩)]
      [("j", ⟨"junction", [], [⟨"x", none, "all"⟩]⟩), ("x", ⟨"import", [], []⟩)] 0).1
      "j" ⟨"junction", [], [⟨"x", none, "all"⟩]⟩ ⟨"x", none, "all"⟩ [] ⟨[], []⟩
      rfl rfl rfl rfl
  · exact (junction_dependency_rejection
      [("p", ⟨"import", [], [⟨"q", none, "all"⟩]⟩), ("q", ⟨"import", [], []⟩)]
      [("j", ⟨"junction", [], [⟨"x", none, "all"⟩]⟩), ("x", ⟨"import", [], []⟩)] 3).2
      "p" [("p", ⟨"import", [], [⟨"q", none, "all"⟩]⟩), ("q", ⟨"import", [], []⟩)]
      rfl "p" ⟨"import", [], [⟨"q", none, "all"⟩]⟩ rfl

/-! ## Circular dependency detection (`Loader._check_circular_deps`,
loader.py lines 243-273)

The check runs over the cross-project graph keyed by globally unique full
names: in the source, a dependency is resolved by `_get_loader_for_dep`
plus the chosen loader's `_elements` table and then re-keyed by
`element.full_name` (lines 250-254, 267-269); here that composite is the
one lookup in a table keyed directly by full name, whose dependency
entries carry the full names the `(loader, local name)` pairs resolve
to. -/

/-- A node of the dependency graph as the cycle check sees it: the
human-readable local name (`element.name`, used in the error message) and
the full names of its dependencies. -/
structure CElem where
  name : String
  deps : List String
deriving DecidableEq

/-- The outcome of the cycle check: `CIRCULAR_DEPENDENCY` with its
message, or the `KeyError` Python would raise on a dangling name. -/
inductive CheckErr where
  | circular (message : String)
  | key
deriving DecidableEq

/-- The message of lines 261-263. -/
def circularMsg (localName : String) : String :=
  "Circular dependency detected for element: " ++ localName

/-- `Loader._check_circular_deps` (lines 243-273) over a worklist of
sibling nodes: Python's loop over `element.deps` is the worklist tail,
`check` is the `check_elements` path dict (most recent first) and
`validated` the validated dict, both threaded by reference.  An already
validated node is skipped; a node on the current path raises
`CIRCULAR_DEPENDENCY` naming its local name; otherwise its dependencies
are checked with the node pushed onto the path, after which the node is
validated.  Every recursive call consumes one unit of fuel; `none` means
out of fuel. -/
def checkCirc (g : List (String × CElem)) :
    Nat → List String → List String → List String → Option (Except CheckErr (List String))
  | _, [], _, validated => some (.ok validated)
  | 0, _ :: _, _, _ => none
  | fuel+1, n :: rest, check, validated =>
    match g.lookup n with
    | none => some (.error .key)
    | some e =>
      if n ∈ validated then checkCirc g fuel rest check validated
      else if n ∈ check then some (.error (.circular (circularMsg e.name)))
      else
        match checkCirc g fuel e.deps (n :: check) validated with
        | none => none
        | some (.error err) => some (.error err)
        | some (.ok v2) => checkCirc g fuel rest check (n :: v2)

/-- The dependency edge relation of the full-name graph. -/
def Edge (g : List (String × CElem)) (a b : String) : Prop :=
  ∃ e, g.lookup a = some e ∧ b ∈ e.deps

/-- A set of names closed under dependency edges. -/
def VClosed (g : List (String × CElem)) (v : List String) : Prop :=
  ∀ a ∈ v, ∀ b, Edge g a b → b ∈ v

/-- A cycle is reachable from `a`. -/
def CycleFrom (g : List (String × CElem)) (a : String) : Prop :=
  ∃ c, Relation.ReflTransGen (Edge g) a c ∧ Relation.TransGen (Edge g) c c

/-- A set of names from none of which a cycle is reachable. -/
def VSafe (g : List (String × CElem)) (v : List String) : Prop :=
  ∀ a ∈ v, ¬ CycleFrom g a

/-- Successful runs only grow the validated set, and only with names that
were not on the current path. -/
theorem checkCirc_ok_mono (g : List (String × CElem)) :
    ∀ (fuel : Nat) (l check validated v2 : List String),
      checkCirc g fuel l check validated = some (.ok v2) →
      (∀ x ∈ validated, x ∈ v2) ∧ (∀ x ∈ v2, x ∈ validated ∨ x ∉ check) := by
  intro fuel
  induction fuel with
  | zero =>
    intro l check validated v2 h
    cases l with
    | nil =>
      simp only [checkCirc, Option.some.injEq, Except.ok.injEq] at h
      subst h
      exact ⟨fun x hx => hx, fun x hx => Or.inl hx⟩
    | cons n rest => simp [checkCirc] at h
  | succ fuel ih =>
    intro l check validated v2 h
    cases l with
    | nil =>
      simp only [checkCirc, Option.some.injEq, Except.ok.injEq] at h
      subst h
      exact ⟨fun x hx => hx, fun x hx => Or.inl hx⟩
    | cons n rest =>
      rw [checkCirc] at h
      cases hlook : g.lookup n with
      | none => simp [hlook] at h
      | some e =>
        simp only [hlook] at h
        by_cases hv : n ∈ validated
        · rw [if_pos hv] at h
          exact ih rest check validated v2 h
        · rw [if_neg hv] at h
          by_cases hc : n ∈ check
          · simp [if_pos hc] at h
          · rw [if_neg hc] at h
            cases hin : checkCirc g fuel e.deps (n :: check) validated with
            | none => rw [hin] at h; simp at h
            | some res =>
              rw [hin] at h
              cases res with
              | error err => simp at h
              | ok v1 =>
                obtain ⟨hm1, hm2⟩ := ih e.deps (n :: check) validated v1 hin
                obtain ⟨hm3, hm4⟩ := ih rest check (n :: v1) v2 h
                constructor
                · exact fun x hx => hm3 x (List.mem_cons_of_mem n (hm1 x hx))
                · intro x hx
                  rcases hm4 x hx with hx1 | hx2
                  · rcases List.mem_cons.mp hx1 with rfl | hx3
                    · exact Or.inr hc
                    · rcases hm2 x hx3 with hx4 | hx5
                      · exact Or.inl hx4
                      · exact Or.inr (fun hmem => hx5 (List.mem_cons_of_mem n hmem))
                  · exact Or.inr hx2

theorem vclosed_reach (g : List (String × CElem)) (v : List String) (hcl : VClosed g v) :
    ∀ a ∈ v, ∀ c, Relation.ReflTransGen (Edge g) a c → c ∈ v := by
  intro a ha c hr
  induction hr with
  | refl => exact ha
  | tail hab hbc ih => exact hcl _ ih _ hbc

/-- Soundness of success: a run that returns `ok` has verified that no
cycle is reachable from any of the processed nodes — the validated set it
returns is dependency-closed and cycle-free and contains every processed
node. -/
theorem checkCirc_ok_sound (g : List (String × CElem)) :
    ∀ (fuel : Nat) (l check validated v2 : List String),
      VClosed g validated → VSafe g validated →
      checkCirc g fuel l check validated = some (.ok v2) →
      VClosed g v2 ∧ VSafe g v2 ∧ ∀ n ∈ l, n ∈ v2 := by
  intro fuel
  induction fuel with
  | zero =>
    intro l check validated v2 hcl hsf h
    cases l with
    | nil =>
      simp only [checkCirc, Option.some.injEq, Except.ok.injEq] at h
      subst h
      exact ⟨hcl, hsf, by simp⟩
    | cons n rest => simp [checkCirc] at h
  | succ fuel ih =>
    intro l check validated v2 hcl hsf h
    cases l with
    | nil =>
      simp only [checkCirc, Option.some.injEq, Except.ok.injEq] at h
      subst h
      exact ⟨hcl, hsf, by simp⟩
    | cons n rest =>
      rw [checkCirc] at h
      cases hlook : g.lookup n with
      | none => simp [hlook] at h
      | some e =>
        simp only [hlook] at h
        by_cases hv : n ∈ validated
        · rw [if_pos hv] at h
          obtain ⟨h1, h2, h3⟩ := ih rest check validated v2 hcl hsf h
          refine ⟨h1, h2, ?_⟩
          intro m hm
          rcases List.mem_cons.mp hm with rfl | hm2
          · exact (checkCirc_ok_mono g fuel rest check validated v2 h).1 m hv
          · exact h3 m hm2
        · rw [if_neg hv] at h
          by_cases hc : n ∈ check
          · simp [if_pos hc] at h
          · rw [if_neg hc] at h
            cases hin : checkCirc g fuel e.deps (n :: check) validated with
            | none => rw [hin] at h; simp at h
            | some res =>
              rw [hin] at h
              cases res with
              | error err => simp at h
              | ok v1 =>
                obtain ⟨hcl1, hsf1, hdeps1⟩ := ih e.deps (n :: check) validated v1 hcl hsf hin
                obtain ⟨hmono1, hnew1⟩ := checkCirc_ok_mono g fuel e.deps (n :: check) validated v1 hin
                have hcl2 : VClosed g (n :: v1) := by
                  intro a ha b hedge
                  rcases List.mem_cons.mp ha with rfl | ha2
                  · obtain ⟨e2, hl2, hb2⟩ := hedge
                    rw [hlook] at hl2
                    cases hl2
                    exact List.mem_cons_of_mem _ (hdeps1 b hb2)
                  · exact List.mem_cons_of_mem n (hcl1 a ha2 b hedge)
                have hsf2 : VSafe g (n :: v1) := by
                  intro a ha hcyc
                  rcases List.mem_cons.mp ha with rfl | ha2
                  · obtain ⟨c, hrc, hcc⟩ := hcyc
                    rcases Relation.ReflTransGen.cases_head hrc with rfl | ⟨b, hnb, hbc⟩
                    · obtain ⟨b, hnb, hbn⟩ := Relation.TransGen.head'_iff.mp hcc
                      obtain ⟨e2, hl2, hb2⟩ := hnb
                      rw [hlook] at hl2
                      cases hl2
                      have hbv : b ∈ v1 := hdeps1 b hb2
                      have hnv : a ∈ v1 := vclosed_reach g v1 hcl1 b hbv a hbn
                      rcases hnew1 a hnv with h1 | h2
                      · exact hv h1
                      · exact h2 (List.mem_cons_self a check)
                    · obtain ⟨e2, hl2, hb2⟩ := hnb
                      rw [hlook] at hl2
                      cases hl2
                      have hbv : b ∈ v1 := hdeps1 b hb2
                      have hcv : c ∈ v1 := vclosed_reach g v1 hcl1 b hbv c hbc
                      exact hsf1 c hcv ⟨c, Relation.ReflTransGen.refl, hcc⟩
                  · exact hsf1 a ha2 hcyc
                obtain ⟨hcl3, hsf3, hrest3⟩ := ih rest check (n :: v1) v2 hcl2 hsf2 h
                refine ⟨hcl3, hsf3, ?_⟩
                intro m hm
                rcases List.mem_cons.mp hm with rfl | hm2
                · exact (checkCirc_ok_mono g fuel rest check (m :: v1) v2 h).1 m
                    (List.mem_cons_self m v1)
                · exact hrest3 m hm2

/-- The `check` path is a chain: each entry is a dependency of the entry
pushed just before it (stored just after it in the list). -/
def PathChain (g : List (String × CElem)) : List String → Prop
  | [] => True
  | [_] => True
  | a :: b :: rest => Edge g b a ∧ PathChain g (b :: rest)

theorem chain_reach (g : List (String × CElem)) :
    ∀ (cs : List String) (c1 : String), PathChain g (c1 :: cs) →
      ∀ x ∈ c1 :: cs, Relation.ReflTransGen (Edge g) x c1 := by
  intro cs
  induction cs with
  | nil =>
    intro c1 hch x hx
    rcases List.mem_singleton.mp hx with rfl
    exact Relation.ReflTransGen.refl
  | cons c2 rest ih =>
    intro c1 hch x hx
    simp only [PathChain] at hch
    obtain ⟨hedge, hch2⟩ := hch
    rcases List.mem_cons.mp hx with rfl | hx2
    · exact Relation.ReflTransGen.refl
    · exact (ih c2 hch2 x hx2).tail hedge

/-- Soundness of the `CIRCULAR_DEPENDENCY` error: when the check raises
it, the graph has a cycle reachable from the root, and the message names
the local name of the element at the point of re-encounter. -/
theorem checkCirc_error_sound (g : List (String × CElem)) (root : String) :
    ∀ (fuel : Nat) (l check validated : List String) (msg : String),
      PathChain g check →
      (∀ c ∈ check, Relation.ReflTransGen (Edge g) root c) →
      (∀ n ∈ l, Relation.ReflTransGen (Edge g) root n) →
      (∀ c1 cs, check = c1 :: cs → ∀ n ∈ l, Edge g c1 n) →
      checkCirc g fuel l check validated = some (.error (.circular msg)) →
      ∃ x e, g.lookup x = some e ∧ msg = circularMsg e.name
        ∧ Relation.ReflTransGen (Edge g) root x ∧ Relation.TransGen (Edge g) x x := by
  intro fuel
  induction fuel with
  | zero =>
    intro l check validated msg hch hrc hrl hhe h
    cases l with
    | nil => simp [checkCirc] at h
    | cons n rest => simp [checkCirc] at h
  | succ fuel ih =>
    intro l check validated msg hch hrc hrl hhe h
    cases l with
    | nil => simp [checkCirc] at h
    | cons n rest =>
      rw [checkCirc] at h
      cases hlook : g.lookup n with
      | none => simp [hlook] at h
      | some e =>
        simp only [hlook] at h
        by_cases hv : n ∈ validated
        · rw [if_pos hv] at h
          exact ih rest check validated msg hch hrc
            (fun m hm => hrl m (List.mem_cons_of_mem n hm))
            (fun c1 cs hcs m hm => hhe c1 cs hcs m (List.mem_cons_of_mem n hm)) h
        · rw [if_neg hv] at h
          by_cases hc : n ∈ check
          · rw [if_pos hc] at h
            simp only [Option.some.injEq, Except.error.injEq, CheckErr.circular.injEq] at h
            refine ⟨n, e, hlook, h.symm, hrc n hc, ?_⟩
            cases check with
            | nil => exact absurd hc (by simp)
            | cons c1 cs =>
              have hr1 : Relation.ReflTransGen (Edge g) n c1 := chain_reach g cs c1 hch n hc
              have he1 : Edge g c1 n := hhe c1 cs rfl n (List.mem_cons_self n rest)
              exact Relation.TransGen.tail' hr1 he1
          · rw [if_neg hc] at h
            have hchain2 : PathChain g (n :: check) := by
              cases check with
              | nil => simp [PathChain]
              | cons c1 cs =>
                simp only [PathChain]
                exact ⟨hhe c1 cs rfl n (List.mem_cons_self n rest), hch⟩
            have hrc2 : ∀ c ∈ n :: check, Relation.ReflTransGen (Edge g) root c := by
              intro c hcm
              rcases List.mem_cons.mp hcm with rfl | hcm2
              · exact hrl c (List.mem_cons_self c rest)
              · exact hrc c hcm2
            have hrl2 : ∀ d ∈ e.deps, Relation.ReflTransGen (Edge g) root d := by
              intro d hd
              exact (hrl n (List.mem_cons_self n rest)).tail ⟨e, hlook, hd⟩
            have hhe2 : ∀ c1 cs, n :: check = c1 :: cs → ∀ d ∈ e.deps, Edge g c1 d := by
              intro c1 cs hcs d hd
              cases hcs
              exact ⟨e, hlook, hd⟩
            cases hin : checkCirc g fuel e.deps (n :: check) validated with
            | none => rw [hin] at h; simp at h
            | some res =>
              rw [hin] at h
              cases res with
              | error err =>
                simp only [Option.some.injEq, Except.error.injEq] at h
                subst h
                exact ih e.deps (n :: check) validated msg hchain2 hrc2 hrl2 hhe2 hin
              | ok v1 =>
                exact ih rest check (n :: v1) msg hch hrc
                  (fun m hm => hrl m (List.mem_cons_of_mem n hm))
                  (fun c1 cs hcs m hm => hhe c1 cs hcs m (List.mem_cons_of_mem n hm)) h

/-- With a dependency-closed graph and resolvable worklist names, the
`KeyError` outcome is impossible. -/
theorem checkCirc_no_key (g : List (String × CElem))
    (hclosed : ∀ a e, g.lookup a = some e → ∀ d ∈ e.deps, (g.lookup d).isSome = true) :
    ∀ (fuel : Nat) (l check validated : List String),
      (∀ n ∈ l, (g.lookup n).isSome = true) →
      checkCirc g fuel l check validated ≠ some (.error .key) := by
  intro fuel
  induction fuel with
  | zero =>
    intro l check validated hl h
    cases l with
    | nil => simp [checkCirc] at h
    | cons n rest => simp [checkCirc] at h
  | succ fuel ih =>
    intro l check validated hl h
    cases l with
    | nil => simp [checkCirc] at h
    | cons n rest =>
      rw [checkCirc] at h
      cases hlook : g.lookup n with
      | none =>
        have := hl n (List.mem_cons_self n rest)
        rw [hlook] at this
        simp at this
      | some e =>
        simp only [hlook] at h
        by_cases hv : n ∈ validated
        · rw [if_pos hv] at h
          exact ih rest check validated (fun m hm => hl m (List.mem_cons_of_mem n hm)) h
        · rw [if_neg hv] at h
          by_cases hc : n ∈ check
          · simp [if_pos hc] at h
          · rw [if_neg hc] at h
            cases hin : checkCirc g fuel e.deps (n :: check) validated with
            | none => rw [hin] at h; simp at h
            | some res =>
              rw [hin] at h
              cases res with
              | error err =>
                simp only [Option.some.injEq, Except.error.injEq] at h
                subst h
                exact ih e.deps (n :: check) validated (hclosed n e hlook) hin
              | ok v1 =>
                exact ih rest check (n :: v1) (fun m hm => hl m (List.mem_cons_of_mem n hm)) h

/-- The fuel potential of a call: the worklist length plus one unit and
one per dependency for every graph entry neither on the path nor
validated. -/
def freeWeight (g : List (String × CElem)) (check validated : List String) : Nat :=
  ((g.filter (fun p => decide (p.1 ∉ check) && decide (p.1 ∉ validated))).map
    (fun p => 1 + p.2.deps.length)).sum

theorem freeWeight_cons (k : String) (el : CElem) (rest : List (String × CElem))
    (check validated : List String) :
    freeWeight ((k, el) :: rest) check validated
      = (if k ∉ check ∧ k ∉ validated then 1 + el.deps.length else 0)
        + freeWeight rest check validated := by
  unfold freeWeight
  rw [List.filter_cons]
  by_cases h1 : k ∉ check ∧ k ∉ validated
  · have hb : (decide ((k, el).1 ∉ check) && decide ((k, el).1 ∉ validated)) = true := by
      simp only [Bool.and_eq_true, decide_eq_true_eq]
      exact h1
    rw [if_pos hb, if_pos h1]
    simp [List.map_cons, List.sum_cons]
  · have hb : (decide ((k, el).1 ∉ check) && decide ((k, el).1 ∉ validated)) = false := by
      by_cases hc : k ∈ check
      · simp [hc]
      · have hv : k ∈ validated := by
          by_contra hv2
          exact h1 ⟨hc, hv2⟩
        simp [hv]
    rw [hb, if_neg h1]
    simp

theorem freeWeight_mono_validated (g : List (String × CElem)) (check : List String)
    (v v2 : List String) (hsub : ∀ x ∈ v, x ∈ v2) :
    freeWeight g check v2 ≤ freeWeight g check v := by
  induction g with
  | nil => simp [freeWeight]
  | cons p rest ih =>
    obtain ⟨k, el⟩ := p
    rw [freeWeight_cons, freeWeight_cons]
    by_cases h1 : k ∉ check ∧ k ∉ v2
    · have h2 : k ∉ check ∧ k ∉ v := ⟨h1.1, fun hm => h1.2 (hsub k hm)⟩
      rw [if_pos h1, if_pos h2]
      omega
    · rw [if_neg h1]
      by_cases h2 : k ∉ check ∧ k ∉ v
      · rw [if_pos h2]
        omega
      · rw [if_neg h2]
        omega

theorem freeWeight_mono_check (g : List (String × CElem)) (check check2 : List String)
    (validated : List String) (hsub : ∀ x ∈ check, x ∈ check2) :
    freeWeight g check2 validated ≤ freeWeight g check validated := by
  induction g with
  | nil => simp [freeWeight]
  | cons p rest ih =>
    obtain ⟨k, el⟩ := p
    rw [freeWeight_cons, freeWeight_cons]
    by_cases h1 : k ∉ check2 ∧ k ∉ validated
    · have h2 : k ∉ check ∧ k ∉ validated := ⟨fun hm => h1.1 (hsub k hm), h1.2⟩
      rw [if_pos h1, if_pos h2]
      omega
    · rw [if_neg h1]
      by_cases h2 : k ∉ check ∧ k ∉ validated
      · rw [if_pos h2]
        omega
      · rw [if_neg h2]
        omega

theorem freeWeight_erase_check (g : List (String × CElem)) (check validated : List String)
    (n : String) (e : CElem) (hl : g.lookup n = some e) (hc : n ∉ check) (hv : n ∉ validated) :
    1 + e.deps.length + freeWeight g (n :: check) validated ≤ freeWeight g check validated := by
  induction g with
  | nil => simp [List.lookup] at hl
  | cons p rest ih =>
    obtain ⟨k, el⟩ := p
    rw [freeWeight_cons, freeWeight_cons]
    by_cases hk : k = n
    · subst hk
      have hel : el = e := by simpa [List.lookup] using hl
      subst hel
      have hpos : k ∉ check ∧ k ∉ validated := ⟨hc, hv⟩
      have hneg : ¬ (k ∉ k :: check ∧ k ∉ validated) := by
        intro hcon
        exact hcon.1 (List.mem_cons_self k check)
      rw [if_pos hpos, if_neg hneg]
      have := freeWeight_mono_check rest check (k :: check) validated
        (fun x hx => List.mem_cons_of_mem k hx)
      omega
    · have hbe : (n == k) = false := beq_eq_false_iff_ne.mpr (fun h => hk h.symm)
      have hl2 : rest.lookup n = some e := by simpa [List.lookup, hbe] using hl
      have ihr := ih hl2
      by_cases h1 : k ∉ check ∧ k ∉ validated
      · have h2 : k ∉ n :: check ∧ k ∉ validated := by
          refine ⟨?_, h1.2⟩
          intro hm
          rcases List.mem_cons.mp hm with rfl | hm2
          · exact hk rfl
          · exact h1.1 hm2
        rw [if_pos h1, if_pos h2]
        omega
      · have h2 : ¬ (k ∉ n :: check ∧ k ∉ validated) := by
          intro hcon
          exact h1 ⟨fun hm => hcon.1 (List.mem_cons_of_mem n hm), hcon.2⟩
        rw [if_neg h1, if_neg h2]
        omega

theorem freeWeight_erase_validated (g : List (String × CElem)) (check validated : List String)
    (n : String) (e : CElem) (hl : g.lookup n = some e) (hc : n ∉ check) (hv : n ∉ validated) :
    1 + e.deps.length + freeWeight g check (n :: validated) ≤ freeWeight g check validated := by
  induction g with
  | nil => simp [List.lookup] at hl
  | cons p rest ih =>
    obtain ⟨k, el⟩ := p
    rw [freeWeight_cons, freeWeight_cons]
    by_cases hk : k = n
    · subst hk
      have hel : el = e := by simpa [List.lookup] using hl
      subst hel
      have hpos : k ∉ check ∧ k ∉ validated := ⟨hc, hv⟩
      have hneg : ¬ (k ∉ check ∧ k ∉ k :: validated) := by
        intro hcon
        exact hcon.2 (List.mem_cons_self k validated)
      rw [if_pos hpos, if_neg hneg]
      have := freeWeight_mono_validated rest check validated (k :: validated)
        (fun x hx => List.mem_cons_of_mem k hx)
      omega
    · have hbe : (n == k) = false := beq_eq_false_iff_ne.mpr (fun h => hk h.symm)
      have hl2 : rest.lookup n = some e := by simpa [List.lookup, hbe] using hl
      have ihr := ih hl2
      by_cases h1 : k ∉ check ∧ k ∉ validated
      · have h2 : k ∉ check ∧ k ∉ n :: validated := by
          refine ⟨h1.1, ?_⟩
          intro hm
          rcases List.mem_cons.mp hm with rfl | hm2
          · exact hk rfl
          · exact h1.2 hm2
        rw [if_pos h1, if_pos h2]
        omega
      · have h2 : ¬ (k ∉ check ∧ k ∉ n :: validated) := by
          intro hcon
          exact h1 ⟨hcon.1, fun hm => hcon.2 (List.mem_cons_of_mem n hm)⟩
        rw [if_neg h1, if_neg h2]
        omega

/-- Fuel adequacy: with fuel at least the worklist length plus the free
weight, the check never runs out of fuel. -/
theorem checkCirc_adequate (g : List (String × CElem)) :
    ∀ (fuel : Nat) (l check validated : List String),
      l.length + freeWeight g check validated ≤ fuel →
      checkCirc g fuel l check validated ≠ none := by
  intro fuel
  induction fuel with
  | zero =>
    intro l check validated hb h
    cases l with
    | nil => simp [checkCirc] at h
    | cons n rest => simp at hb
  | succ fuel ih =>
    intro l check validated hb h
    cases l with
    | nil => simp [checkCirc] at h
    | cons n rest =>
      rw [checkCirc] at h
      cases hlook : g.lookup n with
      | none => simp [hlook] at h
      | some e =>
        simp only [hlook] at h
        by_cases hv : n ∈ validated
        · rw [if_pos hv] at h
          refine ih rest check validated ?_ h
          simp only [List.length_cons] at hb
          omega
        · rw [if_neg hv] at h
          by_cases hc : n ∈ check
          · simp [if_pos hc] at h
          · rw [if_neg hc] at h
            have hec := freeWeight_erase_check g check validated n e hlook hc hv
            simp only [List.length_cons] at hb
            cases hin : checkCirc g fuel e.deps (n :: check) validated with
            | none =>
              refine ih e.deps (n :: check) validated ?_ hin
              omega
            | some res =>
              rw [hin] at h
              cases res with
              | error err => simp at h
              | ok v1 =>
                have hev := freeWeight_erase_validated g check validated n e hlook hc hv
                have hmono := (checkCirc_ok_mono g fuel e.deps (n :: check) validated v1 hin).1
                have hmv := freeWeight_mono_validated g check (n :: validated) (n :: v1)
                  (by
                    intro x hx
                    rcases List.mem_cons.mp hx with rfl | hx2
                    · exact List.mem_cons_self x v1
                    · exact List.mem_cons_of_mem n (hmono x hx2))
                refine ih rest check (n :: v1) ?_ h
                omega

/-- The dummy element `Loader.load` installs (lines 117-121): empty name,
dependencies exactly the requested targets, prepended to the element
table under the key `""`. -/
def withDummy (g : List (String × CElem)) (targets : List String) : List (String × CElem) :=
  ("", ⟨"", targets⟩) :: g

/-- A fuel budget adequate for the whole check. -/
def checkFuel (g : List (String × CElem)) : Nat :=
  1 + (g.map (fun p => 1 + p.2.deps.length)).sum

/-- The cycle-check phase of `Loader.load` (lines 113-126): install the
dummy element and run `_check_circular_deps` on it with fresh
`check_elements` and `validated` dicts. -/
def loadCycleCheck (g : List (String × CElem)) (targets : List String) :
    Option (Except CheckErr (List String)) :=
  checkCirc (withDummy g targets) (checkFuel (withDummy g targets)) [""] [] []

theorem freeWeight_nil_nil (g : List (String × CElem)) :
    freeWeight g [] [] = (g.map (fun p => 1 + p.2.deps.length)).sum := by
  unfold freeWeight
  rw [List.filter_eq_self.mpr]
  intro a _
  simp

theorem lookup_withDummy_ne (g : List (String × CElem)) (targets : List String)
    (a : String) (ha : a ≠ "") : (withDummy g targets).lookup a = g.lookup a := by
  simp [withDummy, List.lookup, beq_eq_false_iff_ne.mpr ha]

theorem lookup_withDummy_root (g : List (String × CElem)) (targets : List String) :
    (withDummy g targets).lookup "" = some ⟨"", targets⟩ := by
  simp [withDummy, List.lookup]

theorem withDummy_no_edge_root (g : List (String × CElem)) (targets : List String)
    (h1 : "" ∉ targets) (h2 : ∀ a e, g.lookup a = some e → "" ∉ e.deps) :
    ∀ c, ¬ Edge (withDummy g targets) c "" := by
  intro c ⟨e, hl, hmem⟩
  by_cases hc : c = ""
  · subst hc
    rw [lookup_withDummy_root] at hl
    cases hl
    exact h1 hmem
  · rw [lookup_withDummy_ne g targets c hc] at hl
    exact h2 c e hl hmem

theorem withDummy_edge_iff (g : List (String × CElem)) (targets : List String)
    (a b : String) (ha : a ≠ "") :
    Edge (withDummy g targets) a b ↔ Edge g a b := by
  unfold Edge
  rw [lookup_withDummy_ne g targets a ha]

theorem withDummy_edge_root_iff (g : List (String × CElem)) (targets : List String)
    (b : String) : Edge (withDummy g targets) "" b ↔ b ∈ targets := by
  unfold Edge
  rw [lookup_withDummy_root]
  constructor
  · intro ⟨e, he, hmem⟩
    cases he
    exact hmem
  · intro hb
    exact ⟨⟨"", targets⟩, rfl, hb⟩

/-- A `ReflTransGen` chain in the dummy graph starting off the root stays
off the root and projects to the original graph. -/
theorem withDummy_rtg_project (g : List (String × CElem)) (targets : List String)
    (h1 : "" ∉ targets) (h2 : ∀ a e, g.lookup a = some e → "" ∉ e.deps)
    (a : String) (ha : a ≠ "") :
    ∀ b, Relation.ReflTransGen (Edge (withDummy g targets)) a b →
      b ≠ "" ∧ Relation.ReflTransGen (Edge g) a b := by
  intro b hr
  induction hr with
  | refl => exact ⟨ha, Relation.ReflTransGen.refl⟩
  | tail hab hbc ih =>
    obtain ⟨hb, hab2⟩ := ih
    have hedge : Edge g _ _ := (withDummy_edge_iff g targets _ _ hb).mp hbc
    obtain ⟨e, hl, hmem⟩ := hedge
    have hcne : _ ≠ "" := fun hcc => h2 _ e hl (hcc ▸ hmem)
    exact ⟨hcne, hab2.tail ⟨e, hl, hmem⟩⟩

/-- A `TransGen` chain in the dummy graph starting off the root projects
to the original graph. -/
theorem withDummy_tg_project (g : List (String × CElem)) (targets : List String)
    (h1 : "" ∉ targets) (h2 : ∀ a e, g.lookup a = some e → "" ∉ e.deps)
    (a : String) (ha : a ≠ "") :
    ∀ b, Relation.TransGen (Edge (withDummy g targets)) a b →
      b ≠ "" ∧ Relation.TransGen (Edge g) a b := by
  intro b hr
  induction hr with
  | single hab =>
    have hedge := (withDummy_edge_iff g targets _ _ ha).mp hab
    obtain ⟨e, hl, hmem⟩ := hedge
    have hbne : _ ≠ "" := fun hbb => h2 _ e hl (hbb ▸ hmem)
    exact ⟨hbne, Relation.TransGen.single ⟨e, hl, hmem⟩⟩
  | tail hab hbc ih =>
    obtain ⟨hb, hab2⟩ := ih
    have hedge := (withDummy_edge_iff g targets _ _ hb).mp hbc
    obtain ⟨e, hl, hmem⟩ := hedge
    have hcne : _ ≠ "" := fun hcc => h2 _ e hl (hcc ▸ hmem)
    exact ⟨hcne, hab2.tail ⟨e, hl, hmem⟩⟩

/-- Edges of the original graph hold in the dummy graph. -/
theorem withDummy_edge_lift (g : List (String × CElem)) (targets : List String)
    (hrootfree : g.lookup "" = none) (a b : String) (h : Edge g a b) :
    Edge (withDummy g targets) a b := by
  obtain ⟨e, hl, hmem⟩ := h
  have ha : a ≠ "" := by
    intro hc
    subst hc
    rw [hrootfree] at hl
    exact Option.noConfusion hl
  exact ⟨e, by rw [lookup_withDummy_ne g targets a ha]; exact hl, hmem⟩

/-- C1: the cycle check of `Loader.load` raises `CIRCULAR_DEPENDENCY`
exactly when a dependency cycle is reachable from some requested target —
the check is keyed by globally unique full name across loader boundaries,
which are the keys of this graph — and the message names the local name of
the element at the point of re-encounter.  The hypotheses say the loaded
element table is dependency-closed, contains the targets, and does not use
the empty name reserved for the synthetic root. -/
theorem mem_of_lookup [BEq kk] [LawfulBEq kk] (l : List (kk × α)) (k : kk) (v : α)
    (h : l.lookup k = some v) : (k, v) ∈ l := by
  induction l with
  | nil => simp [List.lookup] at h
  | cons hd tl ih =>
    obtain ⟨k2, v2⟩ := hd
    by_cases hk : (k == k2) = true
    · have : k = k2 := eq_of_beq hk
      subst this
      have : v2 = v := by simpa [List.lookup] using h
      subst this
      exact List.mem_cons_self _ _
    · rw [Bool.not_eq_true] at hk
      have h2 : tl.lookup k = some v := by simpa [List.lookup, hk] using h
      exact List.mem_cons_of_mem _ (ih h2)

theorem check_circular_deps_iff (g : List (String × CElem)) (targets : List String)
    (hclosedM : ∀ p ∈ g, ∀ d ∈ p.2.deps, (g.lookup d).isSome = true)
    (htargets : ∀ t ∈ targets, (g.lookup t).isSome = true)
    (hrootfree : g.lookup "" = none)
    (hroottarget : "" ∉ targets)
    (hrootdepM : ∀ p ∈ g, "" ∉ p.2.deps) :
    ((∃ msg, loadCycleCheck g targets = some (.error (.circular msg)))
      ↔ ∃ t x, t ∈ targets ∧ Relation.ReflTransGen (Edge g) t x
          ∧ Relation.TransGen (Edge g) x x)
    ∧ (∀ msg, loadCycleCheck g targets = some (.error (.circular msg)) →
        ∃ x e, g.lookup x = some e ∧ msg = circularMsg e.name
          ∧ Relation.TransGen (Edge g) x x
          ∧ ∃ t ∈ targets, Relation.ReflTransGen (Edge g) t x) := by
  have hclosed : ∀ a e, g.lookup a = some e → ∀ d ∈ e.deps, (g.lookup d).isSome = true :=
    fun a e hl d hd => hclosedM (a, e) (mem_of_lookup g a e hl) d hd
  have hrootdep : ∀ a e, g.lookup a = some e → "" ∉ e.deps :=
    fun a e hl => hrootdepM (a, e) (mem_of_lookup g a e hl)
  have hG'closed : ∀ a e, (withDummy g targets).lookup a = some e →
      ∀ d ∈ e.deps, ((withDummy g targets).lookup d).isSome = true := by
    intro a e hl d hd
    by_cases ha : a = ""
    · subst ha
      rw [lookup_withDummy_root] at hl
      cases hl
      have hdne : d ≠ "" := fun h => hroottarget (h ▸ hd)
      rw [lookup_withDummy_ne g targets d hdne]
      exact htargets d hd
    · rw [lookup_withDummy_ne g targets a ha] at hl
      have hdne : d ≠ "" := fun h => hrootdep a e hl (h ▸ hd)
      rw [lookup_withDummy_ne g targets d hdne]
      exact hclosed a e hl d hd
  have hL : ∀ n ∈ ([""] : List String), ((withDummy g targets).lookup n).isSome = true := by
    intro n hn
    rcases List.mem_singleton.mp hn with rfl
    rw [lookup_withDummy_root]
    rfl
  have herr : ∀ msg, loadCycleCheck g targets = some (.error (.circular msg)) →
      ∃ x e, g.lookup x = some e ∧ msg = circularMsg e.name
        ∧ Relation.TransGen (Edge g) x x
        ∧ ∃ t ∈ targets, Relation.ReflTransGen (Edge g) t x := by
    intro msg h
    obtain ⟨x, e2, hlx, hmsg, hrtg, htg⟩ :=
      checkCirc_error_sound (withDummy g targets) ""
        (checkFuel (withDummy g targets)) [""] [] [] msg
        (by simp [PathChain])
        (fun c hc => absurd hc (List.not_mem_nil c))
        (fun n hn => by rcases List.mem_singleton.mp hn with rfl; exact Relation.ReflTransGen.refl)
        (fun c1 cs hcs => List.noConfusion hcs)
        h
    have hxne : x ≠ "" := by
      intro hx
      subst hx
      obtain ⟨b, hb, hbr⟩ := Relation.TransGen.head'_iff.mp htg
      have hbt : b ∈ targets := (withDummy_edge_root_iff g targets b).mp hb
      have hbne : b ≠ "" := fun hh => hroottarget (hh ▸ hbt)
      obtain ⟨hne2, -⟩ := withDummy_rtg_project g targets hroottarget hrootdep b hbne "" hbr
      exact hne2 rfl
    rw [lookup_withDummy_ne g targets x hxne] at hlx
    obtain ⟨-, htgg⟩ := withDummy_tg_project g targets hroottarget hrootdep x hxne x htg
    rcases Relation.ReflTransGen.cases_head hrtg with heq | ⟨b, hb, hbr⟩
    · exact absurd heq.symm hxne
    · have hbt : b ∈ targets := (withDummy_edge_root_iff g targets b).mp hb
      have hbne : b ≠ "" := fun hh => hroottarget (hh ▸ hbt)
      obtain ⟨-, hbx⟩ := withDummy_rtg_project g targets hroottarget hrootdep b hbne x hbr
      exact ⟨x, e2, hlx, hmsg, htgg, b, hbt, hbx⟩
  refine ⟨⟨?_, ?_⟩, herr⟩
  · intro ⟨msg, h⟩
    obtain ⟨x, e2, hlx, hmsg, htgg, t, ht, htx⟩ := herr msg h
    exact ⟨t, x, ht, htx, htgg⟩
  · intro ⟨t, x, ht, hrt, hcyc⟩
    cases hres : loadCycleCheck g targets with
    | none =>
      exfalso
      refine checkCirc_adequate (withDummy g targets)
        (checkFuel (withDummy g targets)) [""] [] [] ?_ hres
      rw [freeWeight_nil_nil]
      simp [checkFuel, withDummy]
    | some res =>
      cases res with
      | error err =>
        cases err with
        | circular msg => exact ⟨msg, rfl⟩
        | key =>
          exact absurd hres (checkCirc_no_key (withDummy g targets) hG'closed
            (checkFuel (withDummy g targets)) [""] [] [] hL)
      | ok v2 =>
        exfalso
        obtain ⟨hcl2, hsf2, hmem2⟩ := checkCirc_ok_sound (withDummy g targets)
          (checkFuel (withDummy g targets)) [""] [] [] v2
          (fun a ha => absurd ha (List.not_mem_nil a))
          (fun a ha => absurd ha (List.not_mem_nil a))
          hres
        have hroot2 : "" ∈ v2 := hmem2 "" (List.mem_singleton.mpr rfl)
        apply hsf2 "" hroot2
        refine ⟨x, ?_, ?_⟩
        · have h1 : Edge (withDummy g targets) "" t :=
            (withDummy_edge_root_iff g targets t).mpr ht
          have h2 : Relation.ReflTransGen (Edge (withDummy g targets)) t x :=
            Relation.ReflTransGen.mono
              (fun a b hab => withDummy_edge_lift g targets hrootfree a b hab) hrt
          exact Relation.ReflTransGen.head h1 h2
        · exact Relation.TransGen.mono
            (fun a b hab => withDummy_edge_lift g targets hrootfree a b hab) hcyc

/-- The acyclic example graph A→{B,C}, B→C of the spec's testable
property. -/
def exGraphAcyclic : List (String × CElem) :=
  [("a", ⟨"a", ["b", "c"]⟩), ("b", ⟨"b", ["c"]⟩), ("c", ⟨"c", []⟩)]

/-- The cyclic example graph A→B→C→A of the spec's testable property. -/
def exGraphCyclic : List (String × CElem) :=
  [("a", ⟨"a", ["b"]⟩), ("b", ⟨"b", ["c"]⟩), ("c", ⟨"c", ["a"]⟩)]

/-- Concrete instantiation of `check_circular_deps_iff`: the acyclic graph
A→B, A→C, B→C passes the check unchanged (and indeed has no reachable
cycle), while A→B→C→A fails with `CIRCULAR_DEPENDENCY` naming the
re-encountered element `a` (and indeed has a reachable cycle). -/
theorem check_circular_deps_iff_witness :
    (loadCycleCheck exGraphAcyclic ["a"] = some (.ok ["", "a", "b", "c"]))
    ∧ (¬ ∃ t x, t ∈ ["a"] ∧ Relation.ReflTransGen (Edge exGraphAcyclic) t x
          ∧ Relation.TransGen (Edge exGraphAcyclic) x x)
    ∧ (loadCycleCheck exGraphCyclic ["a"]
        = some (.error (.circular "Circular dependency detected for element: a")))
    ∧ (∃ t x, t ∈ ["a"] ∧ Relation.ReflTransGen (Edge exGraphCyclic) t x
          ∧ Relation.TransGen (Edge exGraphCyclic) x x) := by
  refine ⟨rfl, ?_, rfl, ?_⟩
  · intro hcyc
    obtain ⟨msg, hmsg⟩ := (check_circular_deps_iff exGraphAcyclic ["a"]
      (by decide) (by decide) (by decide) (by decide) (by decide)).1.mpr hcyc
    rw [show loadCycleCheck exGraphAcyclic ["a"] = some (.ok ["", "a", "b", "c"]) from rfl] at hmsg
    simp at hmsg
  · obtain ⟨x, e2, hlx, hmsg, htg, t, ht, hrt⟩ := (check_circular_deps_iff exGraphCyclic ["a"]
      (by decide) (by decide) (by decide) (by decide) (by decide)).2
      "Circular dependency detected for element: a" rfl
    exact ⟨t, x, ht, hrt, htg⟩
